import Mathlib

/-!
# ECDH key management of `src/crypto/crypto_ecdh.cc`

A shallow embedding of the functions of `crypto_ecdh.cc` that the claims are
about, followed by the theorems.

Conventions of the embedding.

* `BIGNUM` values are integers (`Int`: sign and magnitude), byte buffers are
  `List UInt8`, a null pointer is `none`.
* The elliptic-curve arithmetic of OpenSSL is outside this file.  Whatever the
  source obtains from it (the order of a group, `k·G`, the full key check, the
  decoding of a point, the raw shared secret) is read from a record `OpenSSL`
  of functions; the theorems hold for every such record, and a sample record
  for prime256v1 serves to evaluate the embedding on concrete inputs.
* Where the source branches on the failure of a primitive (`if (!priv)`,
  `CHECK(new_key)`), a field of `OpenSSL` decides whether the primitive fails.
  A primitive that works on the key of the object in place
  (`EC_KEY_generate_key`, `EC_KEY_set_public_key`, `EC_KEY_copy`) can fail
  after it has written to the key: what it leaves then is read from a field of
  `OpenSSL` or from the argument of the call, also where the source does not
  test its result.
* A function that throws returns `Outcome.thrown e`; a failed `CHECK` is
  `Outcome.aborted`.
-/

namespace NodeEcdh

/-! ## Errors and outcomes -/

/-- Error codes thrown by the `THROW_ERR_*` helpers used in `crypto_ecdh.cc`. -/
inductive NodeError where
  | ERR_CRYPTO_INVALID_CURVE
  | ERR_CRYPTO_INVALID_KEYPAIR
  | ERR_CRYPTO_INVALID_KEYTYPE
  | ERR_CRYPTO_INVALID_JWK
  | ERR_CRYPTO_OPERATION_FAILED
  | ERR_OUT_OF_RANGE
deriving DecidableEq, Repr

/-- How a call of a binding ends: it returns a value, it throws a typed error
and returns, or a `CHECK` fails and the process is aborted. -/
inductive Outcome (α : Type) where
  | returned (v : α)
  | thrown (e : NodeError)
  | aborted
deriving DecidableEq, Repr

/-! ## Data model -/

/-- An `EC_GROUP`, identified by the numeric id of its curve. -/
structure EC_GROUP where
  curve_name : Int
deriving DecidableEq, Repr

/-- An `EC_POINT`: the point at infinity or a pair of affine coordinates. -/
inductive EC_POINT where
  | infinity
  | affine (x y : Int)
deriving DecidableEq, Repr

/-- An `EC_KEY`: a group, an optional public point, an optional private
scalar. -/
structure EC_KEY where
  group : EC_GROUP
  pub_key : Option EC_POINT
  priv_key : Option Int
deriving DecidableEq, Repr

/-- The members of the class `ECDH`: `key_` and `group_`. -/
structure ECDH where
  key_ : EC_KEY
  group_ : EC_GROUP
deriving DecidableEq, Repr

/-- The OpenSSL primitives the source calls whose results are not computed in
this file. -/
structure OpenSSL where
  /-- `EC_GROUP_get_order`: the order, or `none` when the call returns 0. -/
  EC_GROUP_get_order : EC_GROUP → Option Int
  /-- `EC_GROUP_get_degree`: the field degree in bits, a C `int`. -/
  EC_GROUP_get_degree : EC_GROUP → Int
  /-- `EC_KEY_check_key`: the `int` it returns (1 for a valid key). -/
  EC_KEY_check_key : EC_KEY → Int
  /-- `EC_POINT_new`: whether the allocation succeeds. -/
  EC_POINT_new : EC_GROUP → Bool
  /-- `EC_POINT_oct2point`: the decoded point, or `none` when it returns 0. -/
  EC_POINT_oct2point : EC_GROUP → List UInt8 → Option EC_POINT
  /-- `EC_POINT_mul (group, r, n, NULL, NULL, NULL)`: the point `n·G`, or `none`
  when the call returns 0. -/
  EC_POINT_mul : EC_GROUP → Int → Option EC_POINT
  /-- The raw shared secret that `ECDH_compute_key` derives from a peer point
  and an own key, or `none` when the derivation fails. -/
  ecdh_secret : Option EC_POINT → EC_KEY → Option (List UInt8)
  /-- Whether `BN_bin2bn (buf, len, NULL)` manages to allocate its result. -/
  BN_bin2bn_alloc : List UInt8 → Bool
  /-- Whether `EC_KEY_dup` succeeds. -/
  EC_KEY_dup_ok : EC_KEY → Bool
  /-- Whether `EC_KEY_set_private_key` succeeds. -/
  EC_KEY_set_private_key_ok : EC_KEY → Int → Bool
  /-- Whether `EC_KEY_set_public_key` succeeds. -/
  EC_KEY_set_public_key_ok : EC_KEY → EC_POINT → Bool
  /-- The content of freshly allocated, not yet written memory, byte by
  byte. -/
  uninitialized : Nat → UInt8
  /-- `EC_curve_nist2nid`: the id of a NIST curve alias, 0 (`NID_undef`) when
  there is none. -/
  EC_curve_nist2nid : String → Int
  /-- `OBJ_sn2nid`: the id of an object short name, 0 (`NID_undef`) when there
  is none. -/
  OBJ_sn2nid : String → Int
  /-- Whether `EC_KEY_new_by_curve_name` can build a key for this id. -/
  EC_KEY_new_by_curve_name_ok : Int → Bool
  /-- Whether `EC_KEY_set_public_key_affine_coordinates` accepts `(x, y)` as a
  point of the group: the coordinates satisfy the curve equation. -/
  is_on_curve : EC_GROUP → Int → Int → Bool
  /-- `EC_KEY_copy (dest, src)`: `none` when the copy succeeds; when it fails
  on the way (it releases and rebuilds the group, the public point and the
  private scalar of `dest` in turn), the key `dest` is left as. -/
  EC_KEY_copy_left : EC_KEY → EC_KEY → Option EC_KEY
  /-- The public point a key is left with when `EC_KEY_set_public_key` fails
  on it: the old one, or none once it is released. -/
  EC_KEY_set_public_key_left : EC_KEY → EC_POINT → Option EC_POINT

/-! ## Machine integers -/

/-- The largest `int`. -/
def INT_MAX : Int := 2147483647

/-- The value of an `int` expression: the mathematical result wrapped into
`[-2^31, 2^31)`. -/
def toInt32 (x : Int) : Int := (x + 2147483648) % 4294967296 - 2147483648

/-- The conversion of an `int` to `size_t` (64 bits). -/
def toSizeT (x : Int) : Nat := (x % 18446744073709551616).toNat

/-- Memory returned by an allocator before anything is written to it: `len`
bytes of unspecified content. -/
def OpenSSL.malloc (ssl : OpenSSL) (len : Nat) : List UInt8 :=
  (List.range len).map ssl.uninitialized

/-! ## Big numbers -/

/-- The big-endian value of a byte string. -/
def bin2nat (buf : List UInt8) : Nat :=
  buf.foldl (fun acc b => acc * 256 + b.toNat) 0

/-- `BN_bin2bn (buf, len, NULL)`: the non-negative integer whose big-endian
representation is `buf`, or `none` when the result cannot be allocated. -/
def BN_bin2bn (ssl : OpenSSL) (buf : List UInt8) : Option Int :=
  if ssl.BN_bin2bn_alloc buf then some (bin2nat buf : Int) else none

/-- `BN_cmp (a, b)`: -1, 0 or 1 as `a` is less than, equal to or greater than
`b`. -/
def BN_cmp (a b : Int) : Int :=
  if a < b then -1 else if a = b then 0 else 1

/-- `BN_value_one ()`. -/
def BN_value_one : Int := 1

/-! ## `ECDH` -/

/-- `ECDH::IsKeyValidForCurve`. -/
def ECDH.IsKeyValidForCurve (ssl : OpenSSL) (ecdh : ECDH) (private_key : Int) : Bool :=
  if BN_cmp private_key BN_value_one < 0 then
    false
  else
    match ssl.EC_GROUP_get_order ecdh.group_ with
    | none => false
    | some order => decide (BN_cmp private_key order < 0)

/-- `ECDH::IsKeyPairValid`. -/
def ECDH.IsKeyPairValid (ssl : OpenSSL) (ecdh : ECDH) : Bool :=
  decide (1 = ssl.EC_KEY_check_key ecdh.key_)

/-- Modelled from the spec: `ArrayBufferOrViewContents::CheckSizeInt32` is
declared in `crypto_util.h`, which is not under `src/`; the spec calls it the
hard size limit of an input buffer (`OutOfRange`).  It holds when the size
fits an `int`. -/
def CheckSizeInt32 (size : Nat) : Bool := decide ((size : Int) ≤ INT_MAX)

/-- The OpenSSL primitives a call of `ECDH::ComputeSecret` goes through. -/
inductive Prim where
  | EC_KEY_check_key
  | EC_POINT_new
  | EC_POINT_oct2point
  | EC_GROUP_get_degree
  | ECDH_compute_key
deriving DecidableEq, Repr

/-- `ECDH::BufferToPoint`: the point (or null), the error thrown if any, and
the primitives called. -/
def ECDH.BufferToPoint (ssl : OpenSSL) (group : EC_GROUP) (buf : List UInt8) :
    Option EC_POINT × Option NodeError × List Prim :=
  if ssl.EC_POINT_new group = false then
    (none, some .ERR_CRYPTO_OPERATION_FAILED, [.EC_POINT_new])
  else if CheckSizeInt32 buf.length = false then
    (none, some .ERR_OUT_OF_RANGE, [.EC_POINT_new])
  else
    match ssl.EC_POINT_oct2point group buf with
    | none => (none, none, [.EC_POINT_new, .EC_POINT_oct2point])
    | some pub => (some pub, none, [.EC_POINT_new, .EC_POINT_oct2point])

/-- `ECDH_compute_key (out, outlen, pub, key, NULL)`: the value returned (0 on
failure, else the number of bytes stored) and the buffer `out` afterwards.
Without a KDF the first `min (outlen, seclen)` bytes of the secret are
stored. -/
def ECDH_compute_key (ssl : OpenSSL) (out : List UInt8) (outlen : Nat)
    (pub : Option EC_POINT) (key : EC_KEY) : Int × List UInt8 :=
  match ssl.ecdh_secret pub key with
  | none => (0, out)
  | some sec =>
    let n := min outlen sec.length
    ((n : Int), sec.take n ++ out.drop n)

/-- What `ECDH::ComputeSecret` hands back through `args.GetReturnValue ()`. -/
inductive SecretValue where
  | buffer (bytes : List UInt8)
  | ERR_CRYPTO_ECDH_INVALID_PUBLIC_KEY
deriving DecidableEq, Repr

/-- `ECDH::ComputeSecret`: the outcome and the OpenSSL primitives called, in
order. -/
def ECDH.ComputeSecret (ssl : OpenSSL) (ecdh : ECDH) (arg0 : List UInt8) :
    Outcome SecretValue × List Prim :=
  if ecdh.IsKeyPairValid ssl = false then
    (.thrown .ERR_CRYPTO_INVALID_KEYPAIR, [.EC_KEY_check_key])
  else
    match ECDH.BufferToPoint ssl ecdh.group_ arg0 with
    | (none, some e, calls) => (.thrown e, .EC_KEY_check_key :: calls)
    | (none, none, calls) =>
      (.returned .ERR_CRYPTO_ECDH_INVALID_PUBLIC_KEY, .EC_KEY_check_key :: calls)
    | (some pub, _, calls) =>
      let field_size := ssl.EC_GROUP_get_degree ecdh.group_
      let out_len := toSizeT (Int.tdiv (toInt32 (field_size + 7)) 8)
      let out := ssl.malloc out_len
      let r := ECDH_compute_key ssl out out_len (some pub) ecdh.key_
      let calls := .EC_KEY_check_key :: calls ++ [.EC_GROUP_get_degree, .ECDH_compute_key]
      if r.1 = 0 then
        (.thrown .ERR_CRYPTO_OPERATION_FAILED, calls)
      else
        (.returned (.buffer r.2), calls)

/-- `EC_KEY_dup`. -/
def EC_KEY_dup (ssl : OpenSSL) (key : EC_KEY) : Option EC_KEY :=
  if ssl.EC_KEY_dup_ok key then some key else none

/-- `EC_KEY_set_private_key`: the key afterwards, or `none` when it returns
0. -/
def EC_KEY_set_private_key (ssl : OpenSSL) (key : EC_KEY) (priv : Int) : Option EC_KEY :=
  if ssl.EC_KEY_set_private_key_ok key priv then
    some { key with priv_key := some priv }
  else none

/-- `EC_KEY_set_public_key`: the key afterwards, or `none` when it returns
0. -/
def EC_KEY_set_public_key (ssl : OpenSSL) (key : EC_KEY) (pub : EC_POINT) : Option EC_KEY :=
  if ssl.EC_KEY_set_public_key_ok key pub then
    some { key with pub_key := some pub }
  else none

/-- `EC_KEY_copy (dest, src)`: `dest` afterwards, a copy of `src` when the
call succeeds and what the failing call leaves otherwise.  The source does
not look at the value returned. -/
def EC_KEY_copy (ssl : OpenSSL) (dest src : EC_KEY) : EC_KEY :=
  match ssl.EC_KEY_copy_left dest src with
  | none => src
  | some left => left

/-- `ECDH::SetPrivateKey`: the outcome and the object afterwards. -/
def ECDH.SetPrivateKey (ssl : OpenSSL) (ecdh : ECDH) (priv_buffer : List UInt8) :
    Outcome Unit × ECDH :=
  if CheckSizeInt32 priv_buffer.length = false then
    (.thrown .ERR_OUT_OF_RANGE, ecdh)
  else
    match BN_bin2bn ssl priv_buffer with
    | none => (.thrown .ERR_CRYPTO_OPERATION_FAILED, ecdh)
    | some priv =>
      if ecdh.IsKeyValidForCurve ssl priv = false then
        (.thrown .ERR_CRYPTO_INVALID_KEYTYPE, ecdh)
      else
        match EC_KEY_dup ssl ecdh.key_ with
        | none => (.aborted, ecdh)
        | some new_key0 =>
          match EC_KEY_set_private_key ssl new_key0 priv with
          | none => (.thrown .ERR_CRYPTO_OPERATION_FAILED, ecdh)
          | some new_key1 =>
            match new_key1.priv_key with
            | none => (.aborted, ecdh)
            | some priv_key =>
              if ssl.EC_POINT_new ecdh.group_ = false then
                (.aborted, ecdh)
              else
                match ssl.EC_POINT_mul ecdh.group_ priv_key with
                | none => (.thrown .ERR_CRYPTO_OPERATION_FAILED, ecdh)
                | some pub =>
                  match EC_KEY_set_public_key ssl new_key1 pub with
                  | none => (.thrown .ERR_CRYPTO_OPERATION_FAILED, ecdh)
                  | some new_key2 =>
                    let key_ := EC_KEY_copy ssl ecdh.key_ new_key2
                    (.returned (), { key_ := key_, group_ := key_.group })

/-- The configuration of an `ECDHBitsJob`. -/
structure ECDHBitsConfig where
  private_key : EC_KEY
  public_key : EC_KEY
  group : Option EC_GROUP
deriving DecidableEq, Repr

/-- `ECDHBitsTraits::DeriveBits`: `returned none` is the return value `false`,
`returned (some buf)` is `true` with `*out = buf`. -/
def ECDHBitsTraits.DeriveBits (ssl : OpenSSL) (params : ECDHBitsConfig) :
    Outcome (Option (List UInt8)) :=
  match params.group with
  | none => .returned none
  | some group =>
    if ssl.EC_KEY_check_key params.private_key ≠ 1 then .aborted
    else if ssl.EC_KEY_check_key params.public_key ≠ 1 then .aborted
    else
      let pub := params.public_key.pub_key
      let field_size := ssl.EC_GROUP_get_degree group
      let len := toSizeT (Int.tdiv (toInt32 (field_size + 7)) 8)
      let data := ssl.malloc len
      let r := ECDH_compute_key ssl data len pub params.private_key
      if r.1 ≤ 0 then .returned none
      else .returned (some r.2)

/-! ## Byte strings of big numbers -/

/-- The `len` low-order base-256 digits of `n`, most significant first. -/
def nat2bin : Nat → Nat → List UInt8
  | 0, _ => []
  | len + 1, n => UInt8.ofNat (n / 256 ^ len) :: nat2bin len n

/-- The number of base-256 digits of `n`, computed with `fuel` steps. -/
def numBytesAux : Nat → Nat → Nat
  | 0, _ => 0
  | fuel + 1, n => if n = 0 then 0 else numBytesAux fuel (n / 256) + 1

/-- The number of base-256 digits of `n` (0 for 0). -/
def numBytes (n : Nat) : Nat := numBytesAux n n

/-- `BN_num_bytes (a)`: the size of the magnitude of `a` in bytes. -/
def BN_num_bytes (a : Int) : Nat := numBytes a.natAbs

/-- `BN_bn2binpad (a, to, tolen)`: the value returned and the bytes stored at
`to`.  The magnitude of `a` is stored big-endian, zero-padded to `tolen` bytes,
and `tolen` is returned; when `tolen` is less than `BN_num_bytes (a)` nothing is
stored and -1 is returned. -/
def BN_bn2binpad (a : Int) (tolen : Nat) : Int × List UInt8 :=
  if tolen < BN_num_bytes a then (-1, [])
  else ((tolen : Int), nat2bin tolen a.natAbs)

/-- The buffer `buf` after `bytes` have been stored at offset `off`. -/
def writeAt (buf : List UInt8) (off : Nat) (bytes : List UInt8) : List UInt8 :=
  buf.take off ++ bytes ++ buf.drop (off + bytes.length)

/-! ## DER signatures

`d2i_ECDSA_SIG` and `i2d_ECDSA_SIG` are OpenSSL functions.  They are modelled
as the DER (X.690) coding of `SEQUENCE { INTEGER r, INTEGER s }`. -/

/-- The DER length octets of a content of `n` bytes: one octet below 128, else
the long form with the minimal number of length octets. -/
def derLength (n : Nat) : List UInt8 :=
  if n < 128 then [UInt8.ofNat n]
  else UInt8.ofNat (128 + numBytes n) :: nat2bin (numBytes n) n

/-- The number of content octets of the DER INTEGER whose value `v` has
`m = v` when `0 ≤ v` and `m = -v - 1` otherwise. -/
def derIntegerSize (m : Nat) : Nat :=
  if m = 0 then 1
  else if 128 ≤ m / 256 ^ (numBytes m - 1) then numBytes m + 1 else numBytes m

/-- The content octets of the DER INTEGER `v`: the shortest big-endian
representation in the complement of two. -/
def derIntegerContent (v : Int) : List UInt8 :=
  let len := derIntegerSize (if 0 ≤ v then v.toNat else (-v - 1).toNat)
  nat2bin len (v % 256 ^ len).toNat

/-- The DER coding of `INTEGER v`. -/
def derInteger (v : Int) : List UInt8 :=
  2 :: (derLength (derIntegerContent v).length ++ derIntegerContent v)

/-- Modelled from the spec: `i2d_ECDSA_SIG` is an OpenSSL function, not under
`src/`; the spec has it re-encode `(r, s)` as a DER SEQUENCE of two
INTEGERs. -/
def i2d_ECDSA_SIG (r s : Int) : List UInt8 :=
  48 :: (derLength (derInteger r ++ derInteger s).length ++ (derInteger r ++ derInteger s))

/-- Reads DER length octets: the length and the rest of the input.  The
indefinite form, a long form that is not minimal and a truncated input are
refused. -/
def parseDerLength : List UInt8 → Option (Nat × List UInt8)
  | [] => none
  | b :: rest =>
    if b.toNat < 128 then some (b.toNat, rest)
    else
      let k := b.toNat - 128
      if k = 0 ∨ k = 127 ∨ rest.length < k then none
      else
        let n := bin2nat (rest.take k)
        if n < 128 ∨ (rest.take k).head? = some 0 then none
        else some (n, rest.drop k)

/-- The value of the content octets of a DER INTEGER; empty content and
padding that is not minimal are refused. -/
def parseDerIntegerContent (c : List UInt8) : Option Int :=
  match c with
  | [] => none
  | [b] => some (if b.toNat < 128 then (b.toNat : Int) else (b.toNat : Int) - 256)
  | b0 :: b1 :: _ =>
    if (b0.toNat = 0 ∧ b1.toNat < 128) ∨ (b0.toNat = 255 ∧ 128 ≤ b1.toNat) then none
    else if b0.toNat < 128 then some (bin2nat c : Int)
    else some ((bin2nat c : Int) - 256 ^ c.length)

/-- Reads one DER INTEGER: its value and the rest of the input. -/
def parseDerInteger : List UInt8 → Option (Int × List UInt8)
  | [] => none
  | tag :: rest =>
    if tag.toNat ≠ 2 then none
    else
      match parseDerLength rest with
      | none => none
      | some (n, rest1) =>
        if rest1.length < n then none
        else
          match parseDerIntegerContent (rest1.take n) with
          | none => none
          | some v => some (v, rest1.drop n)

/-- Modelled from the spec: `d2i_ECDSA_SIG` is an OpenSSL function, not under
`src/`; the spec has it parse the DER SEQUENCE into two integers `(r, s)` and
fail when parsing fails.  Bytes after the SEQUENCE are not looked at. -/
def d2i_ECDSA_SIG (data : List UInt8) : Option (Int × Int) :=
  match data with
  | [] => none
  | tag :: rest =>
    if tag.toNat ≠ 48 then none
    else
      match parseDerLength rest with
      | none => none
      | some (n, rest1) =>
        if rest1.length < n then none
        else
          match parseDerInteger (rest1.take n) with
          | none => none
          | some (r, rest2) =>
            match parseDerInteger rest2 with
            | none => none
            | some (s, rest3) => if rest3 = [] then some (r, s) else none

/-! ## Signature conversion -/

/-- `GroupOrderSize`: the byte size of the order of the group of `ec`; the
`CHECK` aborts when the order cannot be retrieved. -/
def GroupOrderSize (ssl : OpenSSL) (ec : EC_KEY) : Outcome Nat :=
  match ssl.EC_GROUP_get_order ec.group with
  | none => .aborted
  | some order => .returned (BN_num_bytes order)

/-- `ConvertToWebCryptoSignature`; the empty `ByteSource ()` is `[]`. -/
def ConvertToWebCryptoSignature (ssl : OpenSSL) (key : EC_KEY) (signature : List UInt8) :
    Outcome (List UInt8) :=
  match d2i_ECDSA_SIG signature with
  | none => .returned []
  | some (pr, ps) =>
    match GroupOrderSize ssl key with
    | .aborted => .aborted
    | .thrown e => .thrown e
    | .returned order_size_bytes =>
      let out := ssl.malloc (order_size_bytes * 2)
      let w1 := BN_bn2binpad pr order_size_bytes
      let out1 := writeAt out 0 w1.2
      if w1.1 = 0 then .returned []
      else
        let w2 := BN_bn2binpad ps order_size_bytes
        let out2 := writeAt out1 order_size_bytes w2.2
        if w2.1 = 0 then .returned []
        else .returned out2

/-- `ConvertFromWebCryptoSignature`; the empty `ByteSource ()` is `[]`. -/
def ConvertFromWebCryptoSignature (ssl : OpenSSL) (key : EC_KEY) (signature : List UInt8) :
    Outcome (List UInt8) :=
  match GroupOrderSize ssl key with
  | .aborted => .aborted
  | .thrown e => .thrown e
  | .returned order_size_bytes =>
    if signature.length ≠ 2 * order_size_bytes then .returned []
    else
      let r : Int := bin2nat (signature.take order_size_bytes)
      let s : Int := bin2nat ((signature.drop order_size_bytes).take order_size_bytes)
      let der := i2d_ECDSA_SIG r s
      let size := toInt32 der.length
      if (der.length : Int) ≠ size then .aborted
      else .returned der

/-! ## JWK import and export -/

/-- The values of the host language that the JWK code tells apart. -/
inductive JSValue where
  | undefined
  | null
  | string (s : String)
  | number (n : Int)
deriving DecidableEq, Repr

/-- The object `jwk` read by `ImportJWKEcKey`: what `Get` yields for a property
name, `none` when the access itself throws. -/
abbrev JwkSource := String → Option JSValue

/-- The object `target` written by `ExportJWKEcKey`: the value of every
property, `undefined` for a property it does not have. -/
abbrev JwkTarget := String → JSValue

/-- The collaborators of the host environment. -/
structure Environment where
  /-- Whether `target->Set` succeeds for this property name. -/
  Set_ok : String → Bool
  /-- The base64url text of a byte string. -/
  base64url : List UInt8 → String
  /-- `ByteSource::FromEncodedString`: the bytes of a base64url text. -/
  FromEncodedString : String → List UInt8

/-- `env->jwk_kty_string ()`. -/
def jwk_kty_string : String := "kty"
/-- `env->jwk_ec_string ()`. -/
def jwk_ec_string : String := "EC"
/-- `env->jwk_crv_string ()`. -/
def jwk_crv_string : String := "crv"
/-- `env->jwk_x_string ()`. -/
def jwk_x_string : String := "x"
/-- `env->jwk_y_string ()`. -/
def jwk_y_string : String := "y"
/-- `env->jwk_d_string ()`. -/
def jwk_d_string : String := "d"

/-- `KeyType`. -/
inductive KeyType where
  | kKeyTypeSecret
  | kKeyTypePublic
  | kKeyTypePrivate
deriving DecidableEq, Repr

/-- `KeyObjectData` of an EC key: the key type and the `EC_KEY` of its
`ManagedEVPPKey`. -/
structure KeyObjectData where
  type : KeyType
  ec : EC_KEY
deriving DecidableEq, Repr

/-- `NID_undef`. -/
def NID_undef : Int := 0

/-- `GetCurveFromName`. -/
def GetCurveFromName (ssl : OpenSSL) (name : String) : Int :=
  let nid := ssl.EC_curve_nist2nid name
  if nid = NID_undef then ssl.OBJ_sn2nid name else nid

/-- `EC_KEY_new_by_curve_name`: a key with the group of the curve and neither
public point nor private scalar, or `none`. -/
def EC_KEY_new_by_curve_name (ssl : OpenSSL) (nid : Int) : Option EC_KEY :=
  if ssl.EC_KEY_new_by_curve_name_ok nid then
    some { group := { curve_name := nid }, pub_key := none, priv_key := none }
  else none

/-- `EC_KEY_set_public_key_affine_coordinates`: the key afterwards, or `none`
when it returns 0. -/
def EC_KEY_set_public_key_affine_coordinates (ssl : OpenSSL) (key : EC_KEY) (x y : Int) :
    Option EC_KEY :=
  if ssl.is_on_curve key.group x y then
    some { key with pub_key := some (.affine x y) }
  else none

/-- `ByteSource::ToBN`: the big-endian value of the bytes. -/
def ToBN (bytes : List UInt8) : Int := (bin2nat bytes : Int)

/-- The result of `ImportJWKEcKey`: the key, a typed error, or the empty
pointer returned while an exception of the `jwk` object itself is pending. -/
inductive ImportResult where
  | key (data : KeyObjectData)
  | error (e : NodeError)
  | pending_exception
deriving DecidableEq, Repr

/-- `Value::IsString`. -/
def JSValue.IsString : JSValue → Bool
  | .string _ => true
  | _ => false

/-- `Value::IsUndefined`. -/
def JSValue.IsUndefined : JSValue → Bool
  | .undefined => true
  | _ => false

/-- The text of a value that is a string (`As<String>`). -/
def JSValue.AsString : JSValue → String
  | .string s => s
  | _ => ""

/-- `ImportJWKEcKey`; `curve` is `args[offset]`. -/
def ImportJWKEcKey (ssl : OpenSSL) (env : Environment) (jwk : JwkSource) (curve : String) :
    ImportResult :=
  let nid := GetCurveFromName ssl curve
  if nid = NID_undef then .error .ERR_CRYPTO_INVALID_CURVE
  else
    match jwk jwk_x_string, jwk jwk_y_string, jwk jwk_d_string with
    | some x_value, some y_value, some d_value =>
      if !x_value.IsString || !y_value.IsString ||
          (!d_value.IsUndefined && !d_value.IsString) then
        .error .ERR_CRYPTO_INVALID_JWK
      else
        let type : KeyType :=
          if d_value.IsString then .kKeyTypePrivate else .kKeyTypePublic
        match EC_KEY_new_by_curve_name ssl nid with
        | none => .error .ERR_CRYPTO_INVALID_JWK
        | some ec =>
          let x := env.FromEncodedString x_value.AsString
          let y := env.FromEncodedString y_value.AsString
          match EC_KEY_set_public_key_affine_coordinates ssl ec (ToBN x) (ToBN y) with
          | none => .error .ERR_CRYPTO_INVALID_JWK
          | some ec1 =>
            if type = .kKeyTypePrivate then
              let d := env.FromEncodedString d_value.AsString
              match EC_KEY_set_private_key ssl ec1 (ToBN d) with
              | none => .error .ERR_CRYPTO_INVALID_JWK
              | some ec2 => .key { type := type, ec := ec2 }
            else .key { type := type, ec := ec1 }
    | _, _, _ => .pending_exception

/-- The big number a string member of a JWK holds: its decoded bytes read
big-endian. -/
def jwkNumber (env : Environment) (v : JSValue) : Int :=
  ToBN (env.FromEncodedString v.AsString)

/-- `EC_POINT_get_affine_coordinates`: the coordinates of a point, or `none`
(return value 0) for the point at infinity.  A null point, which the real
call reads through, is not an input of the functions embedded here (a key
object holds a public point); the embedding counts it as a failure too. -/
def EC_POINT_get_affine_coordinates (pub : Option EC_POINT) : Option (Int × Int) :=
  match pub with
  | some (.affine x y) => some (x, y)
  | _ => none

/-- The property `name` of `target` set to `value`. -/
def JwkTarget.set (target : JwkTarget) (name : String) (value : JSValue) : JwkTarget :=
  fun k => if k = name then value else target k

/-- The result of `ExportJWKEcKey` and of `SetEncodedValue`: `Just (true)`
with the target as written, `Nothing` with the target as written so far, or a
failed `CHECK`. -/
inductive ExportResult where
  | just (target : JwkTarget)
  | nothing (target : JwkTarget)
  | aborted

/-- Modelled from the spec: `SetEncodedValue` is defined in `crypto_util.cc`,
which is not under `src/`; the spec has it store under `name` the base64url
text of the big number zero-padded to `size` bytes.  A null big number is
taken to fail the `CHECK` of the pointer. -/
def SetEncodedValue (env : Environment) (target : JwkTarget) (name : String)
    (bn : Option Int) (size : Int) : ExportResult :=
  match bn with
  | none => .aborted
  | some v =>
    if env.Set_ok name then
      .just (target.set name (.string (env.base64url (nat2bin size.toNat v.natAbs))))
    else .nothing target

/-- `CHAR_BIT`. -/
def CHAR_BIT : Int := 8

/-- `ExportJWKEcKey`. -/
def ExportJWKEcKey (ssl : OpenSSL) (env : Environment) (key : KeyObjectData)
    (target : JwkTarget) : ExportResult :=
  let ec := key.ec
  let pub := ec.pub_key
  let group := ec.group
  let degree_bits := ssl.EC_GROUP_get_degree group
  let degree_bytes :=
    toInt32 (Int.tdiv degree_bits CHAR_BIT + Int.tdiv (toInt32 (7 + Int.tmod degree_bits CHAR_BIT)) 8)
  let xy := (EC_POINT_get_affine_coordinates pub).getD (0, 0)
  if env.Set_ok jwk_kty_string = false then .nothing target
  else
    let target1 := target.set jwk_kty_string (.string jwk_ec_string)
    match SetEncodedValue env target1 jwk_x_string (some xy.1) degree_bytes with
    | .aborted => .aborted
    | .nothing t => .nothing t
    | .just target2 =>
      match SetEncodedValue env target2 jwk_y_string (some xy.2) degree_bytes with
      | .aborted => .aborted
      | .nothing t => .nothing t
      | .just target3 =>
        if key.type = .kKeyTypePrivate then
          SetEncodedValue env target3 jwk_d_string ec.priv_key degree_bytes
        else .just target3

/-- The value `degree_bytes` that `ExportJWKEcKey` computes from
`degree_bits`: the width to which `x`, `y` and `d` are padded. -/
def degree_bytes (degree_bits : Int) : Int :=
  toInt32 (Int.tdiv degree_bits CHAR_BIT + Int.tdiv (toInt32 (7 + Int.tmod degree_bits CHAR_BIT)) 8)

/-- The value `out_len` of `ECDH::ComputeSecret`, `len` of
`ECDHBitsTraits::DeriveBits`, computed from `field_size`: the length of the
shared secret. -/
def out_len (field_size : Int) : Nat :=
  toSizeT (Int.tdiv (toInt32 (field_size + 7)) 8)

/-! ## The life of an `ECDH` object -/

/-- `ECDH::New` followed by the constructor `ECDH::ECDH`: the freshly
constructed object; `curve` is `args[0]`. -/
def ECDH.New (ssl : OpenSSL) (curve : String) : Outcome ECDH :=
  let nid := ssl.OBJ_sn2nid curve
  if nid = NID_undef then .thrown .ERR_CRYPTO_INVALID_CURVE
  else
    match EC_KEY_new_by_curve_name ssl nid with
    | none => .thrown .ERR_CRYPTO_OPERATION_FAILED
    | some key => .returned { key_ := key, group_ := key.group }

/-- What one call of `EC_KEY_generate_key` does, which the caller cannot tell
in advance: the scalar it draws at random (`none` when it cannot draw one),
and the private scalar and public point it leaves in the key when it fails
(it works on the key it is given, so a failing call may have overwritten or
wiped them). -/
structure Generation where
  drawn : Option Int
  left_priv_key : Option Int
  left_pub_key : Option EC_POINT
deriving DecidableEq, Repr

/-- `EC_KEY_generate_key`: the value returned (1 on success, 0 on failure) and
the key afterwards.  On success the private scalar is the scalar drawn and the
public point is its multiple of `G`. -/
def EC_KEY_generate_key (ssl : OpenSSL) (key : EC_KEY) (gen : Generation) : Int × EC_KEY :=
  let left : EC_KEY := { key with pub_key := gen.left_pub_key, priv_key := gen.left_priv_key }
  match gen.drawn with
  | none => (0, left)
  | some priv_key =>
    match ssl.EC_POINT_mul key.group priv_key with
    | none => (0, left)
    | some pub_key => (1, { key with pub_key := some pub_key, priv_key := some priv_key })

/-- `ECDH::GenerateKeys`: the outcome and the object afterwards.  The
primitive is given `key_` itself. -/
def ECDH.GenerateKeys (ssl : OpenSSL) (ecdh : ECDH) (gen : Generation) :
    Outcome Unit × ECDH :=
  let r := EC_KEY_generate_key ssl ecdh.key_ gen
  if r.1 = 0 then (.thrown .ERR_CRYPTO_OPERATION_FAILED, { ecdh with key_ := r.2 })
  else (.returned (), { ecdh with key_ := r.2 })

/-- `ECDH::SetPublicKey`: the outcome and the object afterwards.  The point is
set on `key_` itself. -/
def ECDH.SetPublicKey (ssl : OpenSSL) (ecdh : ECDH) (arg0 : List UInt8) :
    Outcome Unit × ECDH :=
  match (ECDH.BufferToPoint ssl ecdh.group_ arg0).1 with
  | none => (.thrown .ERR_CRYPTO_OPERATION_FAILED, ecdh)
  | some pub =>
    match EC_KEY_set_public_key ssl ecdh.key_ pub with
    | none =>
      (.thrown .ERR_CRYPTO_OPERATION_FAILED,
        { ecdh with
          key_ := { ecdh.key_ with pub_key := ssl.EC_KEY_set_public_key_left ecdh.key_ pub } })
    | some key => (.returned (), { ecdh with key_ := key })

/-- A call of one of the three methods that write the key of an `ECDH`
object, with its argument (for `GenerateKeys`, what the generation does). -/
inductive Call where
  | GenerateKeys (gen : Generation)
  | SetPrivateKey (buf : List UInt8)
  | SetPublicKey (buf : List UInt8)
deriving DecidableEq, Repr

/-- The outcome of a call and the object afterwards. -/
def ECDH.call (ssl : OpenSSL) (ecdh : ECDH) : Call → Outcome Unit × ECDH
  | .GenerateKeys gen => ecdh.GenerateKeys ssl gen
  | .SetPrivateKey buf => ecdh.SetPrivateKey ssl buf
  | .SetPublicKey buf => ecdh.SetPublicKey ssl buf

/-- The object after a sequence of calls, each succeeding or failing. -/
def ECDH.run (ssl : OpenSSL) (ecdh : ECDH) (calls : List Call) : ECDH :=
  calls.foldl (fun e c => (e.call ssl c).2) ecdh

/-- Whether a call is a call of `SetPublicKey`. -/
def Call.isSetPublicKey : Call → Bool
  | .SetPublicKey _ => true
  | _ => false

/-- Whether a `GenerateKeys` call succeeds as `EC_KEY_generate_key` is
specified to: it draws a scalar of `[1, order - 1]` of the group `g` and
computes its multiple of `G`.  True for the other calls. -/
def Call.generationSucceeds (ssl : OpenSSL) (g : EC_GROUP) : Call → Bool
  | .GenerateKeys gen =>
    match gen.drawn with
    | none => false
    | some k =>
      (match ssl.EC_GROUP_get_order g with
        | none => false
        | some n => decide (1 ≤ k ∧ k < n)) &&
      (ssl.EC_POINT_mul g k).isSome
  | _ => true

/-- The range part of the invariant of the key material: a private scalar
that is present lies in `[1, order - 1]`. -/
def ECDH.privateScalarInRange (ssl : OpenSSL) (ecdh : ECDH) : Bool :=
  match ecdh.key_.priv_key with
  | none => true
  | some k =>
    match ssl.EC_GROUP_get_order ecdh.group_ with
    | none => false
    | some n => decide (1 ≤ k ∧ k < n)

/-- The point part of the invariant of the key material: when a private
scalar `k` is present, the public point is `k·G`. -/
def ECDH.publicPointMatches (ssl : OpenSSL) (ecdh : ECDH) : Bool :=
  match ecdh.key_.priv_key with
  | none => true
  | some k =>
    match ssl.EC_POINT_mul ecdh.group_ k with
    | none => false
    | some kG => decide (ecdh.key_.pub_key = some kG)

/-- What the calls keep: the group of the object, and a private scalar in
range. -/
def KeyMaterialSound (ssl : OpenSSL) (g : EC_GROUP) (ecdh : ECDH) : Prop :=
  ecdh.group_ = g ∧ ecdh.key_.group = g ∧ ecdh.privateScalarInRange ssl = true

/-! ## A sample instance

The curve prime256v1 with the part of its arithmetic that needs no point
addition: `k·G` and the shared secret are available for `k = 1` only. -/

/-- The numeric id of prime256v1. -/
def NID_X9_62_prime256v1 : Int := 415

/-- The field prime of prime256v1. -/
def prime256v1_p : Int :=
  0xFFFFFFFF00000001000000000000000000000000FFFFFFFFFFFFFFFFFFFFFFFF

/-- The coefficient `b` of prime256v1. -/
def prime256v1_b : Int :=
  0x5AC635D8AA3A93E7B3EBBD55769886BC651D06B0CC53B0F63BCE3C3E27D2604B

/-- The order of the group of prime256v1. -/
def prime256v1_order : Int :=
  0xFFFFFFFF00000000FFFFFFFFFFFFFFFFBCE6FAADA7179E84F3B9CAC2FC632551

/-- The generator of prime256v1. -/
def prime256v1_G : EC_POINT :=
  .affine 0x6B17D1F2E12C4247F8BCE6E563A440F277037D812DEB33A0F4A13945D898C296
    0x4FE342E2FE1A7F9B8EE7EB4A7C0F9E162BCE33576B315ECECBB6406837BF51F5

/-- Whether `(x, y)` is a point of prime256v1. -/
def prime256v1_on_curve (x y : Int) : Bool :=
  decide (0 ≤ x ∧ x < prime256v1_p ∧ 0 ≤ y ∧ y < prime256v1_p ∧
    (y * y - (x * x * x - 3 * x + prime256v1_b)) % prime256v1_p = 0)

/-- The group of prime256v1. -/
def prime256v1 : EC_GROUP := { curve_name := NID_X9_62_prime256v1 }

/-- The sample instance of the OpenSSL primitives.  `OBJ_sn2nid` knows the
short name of the curve and the short name `RSA` (id 19) of an object that is
not a curve; `EC_KEY_copy` does not fail. -/
def sampleSSL : OpenSSL where
  EC_GROUP_get_order g := if g = prime256v1 then some prime256v1_order else none
  EC_GROUP_get_degree g := if g = prime256v1 then 256 else 0
  EC_KEY_check_key k :=
    match k.pub_key, k.priv_key with
    | some (.affine x y), none =>
      if k.group = prime256v1 ∧ prime256v1_on_curve x y then 1 else 0
    | some p, some d =>
      if k.group = prime256v1 ∧ d = 1 ∧ p = prime256v1_G then 1 else 0
    | _, _ => 0
  EC_POINT_new _ := true
  EC_POINT_oct2point g buf :=
    match buf with
    | 4 :: xy =>
      let x : Int := bin2nat (xy.take 32)
      let y : Int := bin2nat (xy.drop 32)
      if g = prime256v1 ∧ xy.length = 64 ∧ prime256v1_on_curve x y then some (.affine x y)
      else none
    | _ => none
  EC_POINT_mul g n := if g = prime256v1 ∧ n = 1 then some prime256v1_G else none
  ecdh_secret pub key :=
    match pub, key.priv_key with
    | some (.affine x _), some 1 => some (nat2bin 32 x.natAbs)
    | _, _ => none
  BN_bin2bn_alloc _ := true
  EC_KEY_dup_ok _ := true
  EC_KEY_set_private_key_ok _ _ := true
  EC_KEY_set_public_key_ok _ _ := true
  uninitialized _ := 170
  EC_curve_nist2nid name := if name = "P-256" then NID_X9_62_prime256v1 else 0
  OBJ_sn2nid name :=
    if name = "prime256v1" then NID_X9_62_prime256v1 else if name = "RSA" then 19 else 0
  EC_KEY_new_by_curve_name_ok nid := decide (nid = NID_X9_62_prime256v1)
  is_on_curve g x y := decide (g = prime256v1) && prime256v1_on_curve x y
  EC_KEY_copy_left _ _ := none
  EC_KEY_set_public_key_left key _ := key.pub_key

/-- The sample instance with an `EC_KEY_copy` that fails when it comes to the
private scalar: the group and the public point of `dest` are those of `src`,
its private scalar is the one it had. -/
def copyFailingSSL : OpenSSL :=
  { sampleSSL with
    EC_KEY_copy_left := fun dest src => some { src with priv_key := dest.priv_key } }

/-- The value of a character of the base64url alphabet. -/
def base64urlValue (c : Char) : Option Nat :=
  if 'A' ≤ c ∧ c ≤ 'Z' then some (c.toNat - 65)
  else if 'a' ≤ c ∧ c ≤ 'z' then some (c.toNat - 97 + 26)
  else if '0' ≤ c ∧ c ≤ '9' then some (c.toNat - 48 + 52)
  else if c = '-' then some 62
  else if c = '_' then some 63
  else none

/-- The character of the base64url alphabet with value `v`. -/
def base64urlChar (v : Nat) : Char :=
  if v < 26 then Char.ofNat (v + 65)
  else if v < 52 then Char.ofNat (v - 26 + 97)
  else if v < 62 then Char.ofNat (v - 52 + 48)
  else if v = 62 then '-'
  else '_'

/-- The `len` low-order base-64 digits of `n` as base64url characters, most
significant first. -/
def nat2base64url : Nat → Nat → List Char
  | 0, _ => []
  | len + 1, n => base64urlChar (n / 64 ^ len % 64) :: nat2base64url len n

/-- The base64url text (without padding) of a byte string. -/
def base64urlEncode (bytes : List UInt8) : String :=
  let chars := (bytes.length * 8 + 5) / 6
  String.mk (nat2base64url chars (bin2nat bytes * 2 ^ (chars * 6 - bytes.length * 8)))

/-- The bytes of a base64url text; characters outside the alphabet are
skipped. -/
def base64urlDecode (text : String) : List UInt8 :=
  let digits := text.data.filterMap base64urlValue
  let bytes := digits.length * 6 / 8
  nat2bin bytes (digits.foldl (fun acc d => acc * 64 + d) 0 / 2 ^ (digits.length * 6 - bytes * 8))

/-- The sample instance of the host environment: every `Set` succeeds. -/
def sampleEnv : Environment where
  Set_ok _ := true
  base64url := base64urlEncode
  FromEncodedString := base64urlDecode

/-- The JWK of the generator of prime256v1 as a public key. -/
def sampleJwk : JwkSource := fun name =>
  if name = "kty" then some (.string "EC")
  else if name = "crv" then some (.string "P-256")
  else if name = "x" then some (.string "axfR8uEsQkf4vOblY6RA8ncDfYEt6zOg9KE5RdiYwpY")
  else if name = "y" then some (.string "T-NC4v4af5uO5-tKfA-eFivOM1drMV7Oy7ZAaDe_UfU")
  else some .undefined

/-- The JWK of the key pair of prime256v1 with private scalar 1. -/
def samplePrivateJwk : JwkSource := fun name =>
  if name = "d" then some (.string "AAAAAAAAAAAAAAAAAAAAAAAAAAAAAAAAAAAAAAAAAAE")
  else sampleJwk name

/-- The generator of prime256v1 as a public `KeyObjectData`. -/
def samplePublicKey : KeyObjectData :=
  { type := .kKeyTypePublic,
    ec := { group := prime256v1, pub_key := some prime256v1_G, priv_key := none } }

/-- The key pair of prime256v1 with private scalar 1 as a private
`KeyObjectData`. -/
def samplePrivateKey : KeyObjectData :=
  { type := .kKeyTypePrivate,
    ec := { group := prime256v1, pub_key := some prime256v1_G, priv_key := some 1 } }

/-- A target object without properties. -/
def emptyTarget : JwkTarget := fun _ => .undefined

/-- A sample `ECDH` object on prime256v1 with private scalar 1. -/
def sampleECDH : ECDH :=
  { key_ := { group := prime256v1, pub_key := some prime256v1_G, priv_key := some 1 },
    group_ := prime256v1 }

/-- A freshly constructed `ECDH` object on prime256v1: no key yet. -/
def freshECDH : ECDH :=
  { key_ := { group := prime256v1, pub_key := none, priv_key := none },
    group_ := prime256v1 }

/-- A sample `ECDHBitsConfig` on prime256v1: private scalar 1 on one side, the
generator as the public point of the peer. -/
def sampleBitsConfig : ECDHBitsConfig :=
  { private_key := { group := prime256v1, pub_key := some prime256v1_G, priv_key := some 1 },
    public_key := { group := prime256v1, pub_key := some prime256v1_G, priv_key := none },
    group := some prime256v1 }

/-- A DER signature `SEQUENCE { INTEGER 2^256, INTEGER 7 }`: its `r` needs 33
bytes, one more than the order of prime256v1. -/
def overflowSignature : List UInt8 :=
  [0x30, 0x26, 0x02, 0x21, 0x01] ++ List.replicate 32 0 ++ [0x02, 0x01, 0x07]

/-- The uncompressed encoding of the generator of prime256v1. -/
def prime256v1_G_octets : List UInt8 :=
  4 :: (nat2bin 32 0x6B17D1F2E12C4247F8BCE6E563A440F277037D812DEB33A0F4A13945D898C296 ++
    nat2bin 32 0x4FE342E2FE1A7F9B8EE7EB4A7C0F9E162BCE33576B315ECECBB6406837BF51F5)

/-- A generation that draws the scalar 1. -/
def sampleGeneration : Generation :=
  { drawn := some 1, left_priv_key := none, left_pub_key := none }

/-- The uncompressed encoding of `2·G` on prime256v1. -/
def prime256v1_2G_octets : List UInt8 :=
  4 :: (nat2bin 32 0x7CF27B188D034F7E8A52380304B51AC3C08969E277F21B35A60B48FC47669978 ++
    nat2bin 32 0x07775510DB8ED040293D9AC69F7430DBBA7DADE63CE982299E04B79D227873D1)

/-- The point `2·G` of prime256v1. -/
def prime256v1_2G : EC_POINT :=
  .affine 0x7CF27B188D034F7E8A52380304B51AC3C08969E277F21B35A60B48FC47669978
    0x07775510DB8ED040293D9AC69F7430DBBA7DADE63CE982299E04B79D227873D1

/-- A public key of prime256v1 whose public point is the point at
infinity. -/
def infinityPublicKey : KeyObjectData :=
  { type := .kKeyTypePublic,
    ec := { group := prime256v1, pub_key := some .infinity, priv_key := none } }

/-- The JWK of the generator of prime256v1 with the private scalar 2, which
is not the scalar of that point. -/
def mismatchedJwk : JwkSource := fun name =>
  if name = "d" then some (.string "AAAAAAAAAAAAAAAAAAAAAAAAAAAAAAAAAAAAAAAAAAI")
  else sampleJwk name

/-- The private key that `mismatchedJwk` imports to: public point `G`, private
scalar 2. -/
def mismatchedPrivateKey : KeyObjectData :=
  { type := .kKeyTypePrivate,
    ec := { group := prime256v1, pub_key := some prime256v1_G, priv_key := some 2 } }

/-- An `ECDHBitsConfig` whose private key is `mismatchedPrivateKey`. -/
def mismatchedBitsConfig : ECDHBitsConfig :=
  { private_key := mismatchedPrivateKey.ec,
    public_key := { group := prime256v1, pub_key := some prime256v1_G, priv_key := none },
    group := some prime256v1 }

/-! ## Theorems -/

/-! ### Key validity -/

/-- The range characterisation of `IsKeyValidForCurve` for a group whose order
is `n`. -/
theorem IsKeyValidForCurve_eq_true_iff (ssl : OpenSSL) (ecdh : ECDH) (n k : Int)
    (hn : ssl.EC_GROUP_get_order ecdh.group_ = some n) :
    ecdh.IsKeyValidForCurve ssl k = true ↔ 1 ≤ k ∧ k < n := by
  unfold ECDH.IsKeyValidForCurve BN_cmp BN_value_one
  rw [hn]
  by_cases h1 : k < 1
  · simp only [h1, if_true]
    constructor
    · intro h; simp at h
    · intro h; omega
  · by_cases h2 : k < n
    · simp [h1, h2]; omega
    · by_cases h3 : k = 1 <;> by_cases h4 : k = n <;> simp [h1, h2, h3, h4] <;> omega

/-- C1: for a group whose order `n` can be retrieved and every big integer `k`,
`IsKeyValidForCurve (k)` is true exactly when `1 ≤ k < n`; it is false for
`k = 0`, for every negative `k` and for every `k ≥ n`. -/
theorem C1_IsKeyValidForCurve_iff_in_range (ssl : OpenSSL) (ecdh : ECDH) (n k : Int)
    (hn : ssl.EC_GROUP_get_order ecdh.group_ = some n) :
    (ecdh.IsKeyValidForCurve ssl k = true ↔ 1 ≤ k ∧ k < n) ∧
    (k = 0 → ecdh.IsKeyValidForCurve ssl k = false) ∧
    (k < 0 → ecdh.IsKeyValidForCurve ssl k = false) ∧
    (n ≤ k → ecdh.IsKeyValidForCurve ssl k = false) := by
  have key := IsKeyValidForCurve_eq_true_iff ssl ecdh n k hn
  refine ⟨key, ?_, ?_, ?_⟩
  · intro h0
    cases hv : ecdh.IsKeyValidForCurve ssl k
    · rfl
    · have := key.1 hv; omega
  · intro h0
    cases hv : ecdh.IsKeyValidForCurve ssl k
    · rfl
    · have := key.1 hv; omega
  · intro h0
    cases hv : ecdh.IsKeyValidForCurve ssl k
    · rfl
    · have := key.1 hv; omega

/-- Witness of C1 on prime256v1 at `k = 5`. -/
theorem C1_IsKeyValidForCurve_iff_in_range_witness :
    sampleSSL.EC_GROUP_get_order sampleECDH.group_ = some prime256v1_order ∧
    ((sampleECDH.IsKeyValidForCurve sampleSSL 5 = true ↔ 1 ≤ (5 : Int) ∧ 5 < prime256v1_order) ∧
    ((5 : Int) = 0 → sampleECDH.IsKeyValidForCurve sampleSSL 5 = false) ∧
    ((5 : Int) < 0 → sampleECDH.IsKeyValidForCurve sampleSSL 5 = false) ∧
    (prime256v1_order ≤ 5 → sampleECDH.IsKeyValidForCurve sampleSSL 5 = false)) :=
  ⟨by decide, C1_IsKeyValidForCurve_iff_in_range sampleSSL sampleECDH prime256v1_order 5 (by decide)⟩

/-! ### Key agreement -/

/-- C2: when the own key pair fails `IsKeyPairValid`, `ComputeSecret` throws
`ERR_CRYPTO_INVALID_KEYPAIR` for every peer buffer; the only primitive it has
called is the key check, so the peer point is not decoded and nothing is
multiplied, and any two peer buffers give the same result. -/
theorem C2_ComputeSecret_invalid_keypair (ssl : OpenSSL) (ecdh : ECDH) (peer peer2 : List UInt8)
    (hinvalid : ecdh.IsKeyPairValid ssl = false) :
    ecdh.ComputeSecret ssl peer = (.thrown .ERR_CRYPTO_INVALID_KEYPAIR, [.EC_KEY_check_key]) ∧
    Prim.EC_POINT_oct2point ∉ (ecdh.ComputeSecret ssl peer).2 ∧
    Prim.ECDH_compute_key ∉ (ecdh.ComputeSecret ssl peer).2 ∧
    ecdh.ComputeSecret ssl peer = ecdh.ComputeSecret ssl peer2 := by
  have h : ∀ b, ecdh.ComputeSecret ssl b =
      (.thrown .ERR_CRYPTO_INVALID_KEYPAIR, [.EC_KEY_check_key]) := by
    intro b
    unfold ECDH.ComputeSecret
    rw [if_pos hinvalid]
  refine ⟨h peer, ?_, ?_, ?_⟩
  · rw [h peer]; decide
  · rw [h peer]; decide
  · rw [h peer, h peer2]

/-- Witness of C2: an `ECDH` object without keys, a valid peer point and a
buffer that encodes no point. -/
theorem C2_ComputeSecret_invalid_keypair_witness :
    freshECDH.IsKeyPairValid sampleSSL = false ∧
    (freshECDH.ComputeSecret sampleSSL prime256v1_G_octets =
      (.thrown .ERR_CRYPTO_INVALID_KEYPAIR, [.EC_KEY_check_key]) ∧
    Prim.EC_POINT_oct2point ∉ (freshECDH.ComputeSecret sampleSSL prime256v1_G_octets).2 ∧
    Prim.ECDH_compute_key ∉ (freshECDH.ComputeSecret sampleSSL prime256v1_G_octets).2 ∧
    freshECDH.ComputeSecret sampleSSL prime256v1_G_octets =
      freshECDH.ComputeSecret sampleSSL [0, 1, 2]) :=
  ⟨by decide,
   C2_ComputeSecret_invalid_keypair sampleSSL freshECDH prime256v1_G_octets [0, 1, 2] (by decide)⟩

theorem malloc_length (ssl : OpenSSL) (len : Nat) : (ssl.malloc len).length = len := by
  simp [OpenSSL.malloc]

theorem ECDH_compute_key_length (ssl : OpenSSL) (out : List UInt8) (pub : Option EC_POINT)
    (key : EC_KEY) : (ECDH_compute_key ssl out out.length pub key).2.length = out.length := by
  unfold ECDH_compute_key
  cases ssl.ecdh_secret pub key with
  | none => rfl
  | some sec =>
    simp only [List.length_append, List.length_take, List.length_drop]
    omega

theorem toInt32_of_range (x : Int) (h0 : 0 ≤ x) (h1 : x ≤ INT_MAX) : toInt32 x = x := by
  unfold toInt32
  unfold INT_MAX at h1
  omega

theorem secret_len_eq (b : Nat) (hb : (b : Int) + 7 ≤ INT_MAX) :
    toSizeT (Int.tdiv (toInt32 ((b : Int) + 7)) 8) = (b + 7) / 8 := by
  rw [toInt32_of_range _ (by omega) hb]
  unfold toSizeT
  unfold INT_MAX at hb
  have h : Int.tdiv ((b : Int) + 7) 8 = (((b + 7) / 8 : Nat) : Int) := by
    rw [Int.tdiv_eq_ediv (by omega) (by omega)]
    omega
  rw [h]
  omega

theorem ceil_div_eight (b : Nat) : ⌈(b : ℚ) / 8⌉₊ = (b + 7) / 8 := by
  apply le_antisymm
  · rw [Nat.ceil_le]
    rw [div_le_iff₀ (by norm_num)]
    have : b ≤ (b + 7) / 8 * 8 := by omega
    exact_mod_cast this
  · by_contra hlt
    push_neg at hlt
    have h1 : ⌈(b : ℚ) / 8⌉₊ * 8 + 8 ≤ b + 7 := by omega
    have h2 : (b : ℚ) / 8 ≤ ⌈(b : ℚ) / 8⌉₊ := Nat.le_ceil _
    rw [div_le_iff₀ (by norm_num)] at h2
    have h3 : b ≤ ⌈(b : ℚ) / 8⌉₊ * 8 := by exact_mod_cast h2
    omega

/-- C3: on a curve of field degree `b` bits, a secret returned by
`ComputeSecret` and a secret returned by `DeriveBits` both have exactly
`ceil (b / 8)` bytes, whatever the own key, the peer point and the value of
the secret (`b + 7` is taken to fit the `int` the source computes it in). -/
theorem C3_secret_length_is_ceil_degree_bytes (ssl : OpenSSL) (b : Nat)
    (hb : (b : Int) + 7 ≤ INT_MAX) :
    (∀ (ecdh : ECDH) (peer secret : List UInt8) (calls : List Prim),
      ssl.EC_GROUP_get_degree ecdh.group_ = (b : Int) →
      ecdh.ComputeSecret ssl peer = (.returned (.buffer secret), calls) →
      secret.length = ⌈(b : ℚ) / 8⌉₊) ∧
    (∀ (params : ECDHBitsConfig) (group : EC_GROUP) (secret : List UInt8),
      params.group = some group →
      ssl.EC_GROUP_get_degree group = (b : Int) →
      ECDHBitsTraits.DeriveBits ssl params = .returned (some secret) →
      secret.length = ⌈(b : ℚ) / 8⌉₊) := by
  constructor
  · intro ecdh peer secret calls hdeg hret
    unfold ECDH.ComputeSecret at hret
    simp only [hdeg, secret_len_eq b hb] at hret
    split_ifs at hret
    · simp at hret
    split at hret
    · simp at hret
    · simp at hret
    · rename_i pub _ _ _
      split_ifs at hret
      · simp at hret
      simp only [Prod.mk.injEq, Outcome.returned.injEq, SecretValue.buffer.injEq] at hret
      rw [ceil_div_eight, ← hret.1]
      have h := ECDH_compute_key_length ssl (ssl.malloc ((b + 7) / 8)) (some pub) ecdh.key_
      rw [malloc_length] at h
      exact h
  · intro params group secret hgroup hdeg hret
    unfold ECDHBitsTraits.DeriveBits at hret
    rw [hgroup] at hret
    simp only [hdeg, secret_len_eq b hb] at hret
    have h := ECDH_compute_key_length ssl (ssl.malloc ((b + 7) / 8)) params.public_key.pub_key
      params.private_key
    rw [malloc_length] at h
    split_ifs at hret
    · simp at hret
    · simp only [Outcome.returned.injEq, Option.some.injEq] at hret
      rw [ceil_div_eight, ← hret]
      exact h

/-- Witness of C3 on prime256v1 (256 bits, 32 bytes): `ComputeSecret` and
`DeriveBits` with private scalar 1 and the generator as peer point. -/
theorem C3_secret_length_is_ceil_degree_bytes_witness :
    ((256 : Nat) : Int) + 7 ≤ INT_MAX ∧
    (sampleSSL.EC_GROUP_get_degree sampleECDH.group_ = ((256 : Nat) : Int) ∧
      sampleECDH.ComputeSecret sampleSSL prime256v1_G_octets =
        (.returned (.buffer ((prime256v1_G_octets.drop 1).take 32)),
          [.EC_KEY_check_key, .EC_POINT_new, .EC_POINT_oct2point, .EC_GROUP_get_degree,
            .ECDH_compute_key]) ∧
      ((prime256v1_G_octets.drop 1).take 32).length = ⌈((256 : Nat) : ℚ) / 8⌉₊) ∧
    (sampleBitsConfig.group = some prime256v1 ∧
      sampleSSL.EC_GROUP_get_degree prime256v1 = ((256 : Nat) : Int) ∧
      ECDHBitsTraits.DeriveBits sampleSSL sampleBitsConfig =
        .returned (some ((prime256v1_G_octets.drop 1).take 32)) ∧
      ((prime256v1_G_octets.drop 1).take 32).length = ⌈((256 : Nat) : ℚ) / 8⌉₊) :=
  ⟨by decide,
   ⟨by decide, by decide,
    (C3_secret_length_is_ceil_degree_bytes sampleSSL 256 (by decide)).1 sampleECDH
      prime256v1_G_octets ((prime256v1_G_octets.drop 1).take 32)
      [.EC_KEY_check_key, .EC_POINT_new, .EC_POINT_oct2point, .EC_GROUP_get_degree,
        .ECDH_compute_key] (by decide) (by decide)⟩,
   ⟨by decide, by decide, by decide,
    (C3_secret_length_is_ceil_degree_bytes sampleSSL 256 (by decide)).2 sampleBitsConfig
      prime256v1 ((prime256v1_G_octets.drop 1).take 32) (by decide) (by decide) (by decide)⟩⟩

/-! ### Setting the private key -/

/-- A buffer that does not pass the size check is refused before it is
converted: `2^31` zero bytes make `SetPrivateKey` throw `ERR_OUT_OF_RANGE`. -/
theorem SetPrivateKey_oversize_buffer :
    (sampleECDH.SetPrivateKey sampleSSL (List.replicate 2147483648 (0 : UInt8))).1 =
      .thrown .ERR_OUT_OF_RANGE := by
  unfold ECDH.SetPrivateKey
  rw [List.length_replicate]
  have hs : CheckSizeInt32 2147483648 = false := by decide
  rw [if_pos hs]

/-- C4: when the buffer passes the size check and is converted to the scalar
`k`, and `k` is outside `[1, order - 1]`, `SetPrivateKey` throws
`ERR_CRYPTO_INVALID_KEYTYPE`; and whenever `SetPrivateKey` does not return
normally (out-of-range scalar, oversize buffer, failed conversion, failure to
set the private key, failure to derive or set the public point, failed
`CHECK`) the object is exactly what it was before the call.  The two paths
that come before the range test are the oversize buffer, which throws
`ERR_OUT_OF_RANGE`, and the failed conversion, which throws
`ERR_CRYPTO_OPERATION_FAILED`. -/
theorem C4_SetPrivateKey_all_or_nothing (ssl : OpenSSL) (ecdh : ECDH) (buf : List UInt8) :
    (CheckSizeInt32 buf.length = true →
      ∀ k : Int, BN_bin2bn ssl buf = some k →
        (∀ n : Int, ssl.EC_GROUP_get_order ecdh.group_ = some n → ¬ (1 ≤ k ∧ k < n)) →
        (ecdh.SetPrivateKey ssl buf).1 = .thrown .ERR_CRYPTO_INVALID_KEYTYPE) ∧
    ((ecdh.SetPrivateKey ssl buf).1 ≠ .returned () → (ecdh.SetPrivateKey ssl buf).2 = ecdh) ∧
    (CheckSizeInt32 buf.length = false →
      (ecdh.SetPrivateKey ssl buf).1 = .thrown .ERR_OUT_OF_RANGE) ∧
    (CheckSizeInt32 buf.length = true → BN_bin2bn ssl buf = none →
      (ecdh.SetPrivateKey ssl buf).1 = .thrown .ERR_CRYPTO_OPERATION_FAILED) := by
  refine ⟨?_, ?_, ?_, ?_⟩
  · intro hsize k hk hrange
    have hinvalid : ecdh.IsKeyValidForCurve ssl k = false := by
      cases hv : ecdh.IsKeyValidForCurve ssl k
      · rfl
      · exfalso
        cases ho : ssl.EC_GROUP_get_order ecdh.group_ with
        | none =>
          unfold ECDH.IsKeyValidForCurve at hv
          rw [ho] at hv
          split_ifs at hv
        | some n =>
          exact hrange n ho ((IsKeyValidForCurve_eq_true_iff ssl ecdh n k ho).1 hv)
    unfold ECDH.SetPrivateKey
    have hs : ¬ (CheckSizeInt32 buf.length = false) := by rw [hsize]; decide
    rw [if_neg hs]
    simp only [hk]
    rw [if_pos hinvalid]
  · intro hfail
    unfold ECDH.SetPrivateKey at hfail ⊢
    repeat' split
    all_goals first
      | rfl
      | (exfalso; apply hfail; simp_all)
  · intro hsize
    unfold ECDH.SetPrivateKey
    rw [if_pos hsize]
  · intro hsize hconv
    unfold ECDH.SetPrivateKey
    have hs : ¬ (CheckSizeInt32 buf.length = false) := by rw [hsize]; decide
    rw [if_neg hs]
    simp only [hconv]

/-- Witness of C4: the one-byte buffer `00` on prime256v1. -/
theorem C4_SetPrivateKey_all_or_nothing_witness :
    (CheckSizeInt32 ([0] : List UInt8).length = true ∧
      BN_bin2bn sampleSSL [0] = some 0 ∧
      (∀ n : Int, sampleSSL.EC_GROUP_get_order sampleECDH.group_ = some n →
        ¬ (1 ≤ (0 : Int) ∧ (0 : Int) < n)) ∧
      (sampleECDH.SetPrivateKey sampleSSL [0]).1 = .thrown .ERR_CRYPTO_INVALID_KEYTYPE) ∧
    ((sampleECDH.SetPrivateKey sampleSSL [0]).1 ≠ .returned () ∧
      (sampleECDH.SetPrivateKey sampleSSL [0]).2 = sampleECDH) :=
  ⟨⟨by decide, by decide, fun _ _ h => absurd h.1 (by decide),
    (C4_SetPrivateKey_all_or_nothing sampleSSL sampleECDH [0]).1 (by decide) 0 (by decide)
      (fun _ _ h => absurd h.1 (by decide))⟩,
   ⟨by decide, (C4_SetPrivateKey_all_or_nothing sampleSSL sampleECDH [0]).2.1 (by decide)⟩⟩

/-- `SetPrivateKey` either does not return normally and leaves the object as
it was, or returns normally: then the scalar of the buffer is valid for the
curve and the key of the object is what `EC_KEY_copy` made of it from the key
holding that scalar and its multiple of the generator. -/
theorem SetPrivateKey_result (ssl : OpenSSL) (ecdh : ECDH) (buf : List UInt8) :
    ((ecdh.SetPrivateKey ssl buf).1 ≠ .returned () ∧ (ecdh.SetPrivateKey ssl buf).2 = ecdh) ∨
    ∃ kG : EC_POINT,
      ecdh.IsKeyValidForCurve ssl (bin2nat buf : Int) = true ∧
      ssl.EC_POINT_mul ecdh.group_ (bin2nat buf : Int) = some kG ∧
      ecdh.SetPrivateKey ssl buf =
        (.returned (),
          { key_ := EC_KEY_copy ssl ecdh.key_
              { group := ecdh.key_.group, pub_key := some kG,
                priv_key := some (bin2nat buf : Int) },
            group_ := (EC_KEY_copy ssl ecdh.key_
              { group := ecdh.key_.group, pub_key := some kG,
                priv_key := some (bin2nat buf : Int) }).group }) := by
  unfold ECDH.SetPrivateKey
  unfold BN_bin2bn EC_KEY_dup EC_KEY_set_private_key EC_KEY_set_public_key
  by_cases h1 : CheckSizeInt32 buf.length = false
  · left; simp [h1]
  by_cases h2 : ssl.BN_bin2bn_alloc buf = true
  swap
  · left; simp [h1, h2]
  by_cases h3 : ecdh.IsKeyValidForCurve ssl (bin2nat buf : Int) = false
  · left; simp [h1, h2, h3]
  by_cases h4 : ssl.EC_KEY_dup_ok ecdh.key_ = true
  swap
  · left; simp [h1, h2, h3, h4]
  by_cases h5 : ssl.EC_KEY_set_private_key_ok ecdh.key_ (bin2nat buf : Int) = true
  swap
  · left; simp [h1, h2, h3, h4, h5]
  by_cases h6 : ssl.EC_POINT_new ecdh.group_ = false
  · left; simp [h1, h2, h3, h4, h5, h6]
  cases h7 : ssl.EC_POINT_mul ecdh.group_ (bin2nat buf : Int) with
  | none => left; simp [h1, h2, h3, h4, h5, h6, h7]
  | some kG =>
    by_cases h8 : ssl.EC_KEY_set_public_key_ok
        { ecdh.key_ with priv_key := some (bin2nat buf : Int) } kG = true
    swap
    · left; simp [h1, h2, h3, h4, h5, h6, h7, h8]
    right
    refine ⟨kG, ?_, rfl, ?_⟩
    · cases hv : ecdh.IsKeyValidForCurve ssl (bin2nat buf : Int)
      · exact absurd hv h3
      · rfl
    · simp [h1, h2, h3, h4, h5, h6, h7, h8]

/-- When `EC_KEY_copy` does not fail on the key of the object, a
`SetPrivateKey` call that returns normally for a buffer that encodes the
scalar `k` leaves `1 ≤ k < order`, the private scalar `k`, the public point
`k·G` as computed by `EC_POINT_mul`, and the group of the object unchanged. -/
theorem SetPrivateKey_success_of_copy (ssl : OpenSSL) (ecdh : ECDH) (buf : List UInt8)
    (hwf : ecdh.group_ = ecdh.key_.group)
    (hcopy : ∀ src : EC_KEY, ssl.EC_KEY_copy_left ecdh.key_ src = none)
    (hok : (ecdh.SetPrivateKey ssl buf).1 = .returned ()) :
    (∃ n : Int, ssl.EC_GROUP_get_order ecdh.group_ = some n ∧
      1 ≤ (bin2nat buf : Int) ∧ (bin2nat buf : Int) < n) ∧
    (ecdh.SetPrivateKey ssl buf).2.key_.priv_key = some (bin2nat buf : Int) ∧
    (∃ kG : EC_POINT, ssl.EC_POINT_mul ecdh.group_ (bin2nat buf : Int) = some kG ∧
      (ecdh.SetPrivateKey ssl buf).2.key_.pub_key = some kG) ∧
    (ecdh.SetPrivateKey ssl buf).2.key_.group = ecdh.key_.group ∧
    (ecdh.SetPrivateKey ssl buf).2.group_ = ecdh.group_ := by
  rcases SetPrivateKey_result ssl ecdh buf with ⟨hne, _⟩ | ⟨kG, hvalid, hmul, h⟩
  · exact absurd hok hne
  · have hc : ∀ src : EC_KEY, EC_KEY_copy ssl ecdh.key_ src = src := by
      intro src
      simp [EC_KEY_copy, hcopy]
    rw [h, hc]
    refine ⟨?_, rfl, ⟨kG, hmul, rfl⟩, rfl, hwf.symm⟩
    cases ho : ssl.EC_GROUP_get_order ecdh.group_ with
    | none =>
      unfold ECDH.IsKeyValidForCurve at hvalid
      rw [ho] at hvalid
      split_ifs at hvalid
    | some n =>
      exact ⟨n, rfl, (IsKeyValidForCurve_eq_true_iff ssl ecdh n _ ho).1 hvalid⟩

/-- C5, the failing input: on a fresh object of prime256v1 the buffer `01`
encodes the scalar 1; when `EC_KEY_copy` fails on the private scalar,
`SetPrivateKey` still returns normally and the object has the public point `G`
and no private scalar (with an `EC_KEY_copy` that succeeds the scalar is 1).
For every instance of the primitives, the key of the object after a normal
return is whatever `EC_KEY_copy` left. -/
theorem C5_SetPrivateKey_copy_failure_unchecked :
    bin2nat ([1] : List UInt8) = 1 ∧
    (freshECDH.SetPrivateKey copyFailingSSL [1]).1 = .returned () ∧
    (freshECDH.SetPrivateKey copyFailingSSL [1]).2.key_.priv_key = none ∧
    (freshECDH.SetPrivateKey copyFailingSSL [1]).2.key_.pub_key = some prime256v1_G ∧
    (freshECDH.SetPrivateKey sampleSSL [1]).2.key_.priv_key = some 1 ∧
    (∀ (ssl : OpenSSL) (ecdh : ECDH) (buf : List UInt8),
      (ecdh.SetPrivateKey ssl buf).1 = .returned () →
      ∃ kG : EC_POINT, ssl.EC_POINT_mul ecdh.group_ (bin2nat buf : Int) = some kG ∧
        (ecdh.SetPrivateKey ssl buf).2.key_ =
          EC_KEY_copy ssl ecdh.key_
            { group := ecdh.key_.group, pub_key := some kG,
              priv_key := some (bin2nat buf : Int) }) := by
  refine ⟨by decide, by decide, by decide, by decide, by decide, ?_⟩
  intro ssl ecdh buf hok
  rcases SetPrivateKey_result ssl ecdh buf with ⟨hne, _⟩ | ⟨kG, _, hmul, h⟩
  · exact absurd hok hne
  · exact ⟨kG, hmul, by rw [h]⟩

/-! ### Big numbers as byte strings -/

theorem nat2bin_length (len n : Nat) : (nat2bin len n).length = len := by
  induction len with
  | zero => rfl
  | succ len ih => simp [nat2bin, ih]

theorem bin2nat_foldl (acc : Nat) (l : List UInt8) :
    l.foldl (fun acc b => acc * 256 + b.toNat) acc = acc * 256 ^ l.length + bin2nat l := by
  unfold bin2nat
  induction l generalizing acc with
  | nil => simp
  | cons b l ih =>
    simp only [List.foldl_cons, List.length_cons]
    rw [ih (acc * 256 + b.toNat), ih (0 * 256 + b.toNat)]
    ring

theorem bin2nat_cons (b : UInt8) (l : List UInt8) :
    bin2nat (b :: l) = b.toNat * 256 ^ l.length + bin2nat l := by
  have h := bin2nat_foldl (0 * 256 + b.toNat) l
  simp only [Nat.zero_mul, Nat.zero_add] at h
  simpa [bin2nat] using h

theorem bin2nat_append (a b : List UInt8) :
    bin2nat (a ++ b) = bin2nat a * 256 ^ b.length + bin2nat b := by
  induction a with
  | nil => simp [bin2nat]
  | cons x a ih =>
    rw [List.cons_append, bin2nat_cons, bin2nat_cons, ih, List.length_append]
    ring

theorem toNat_ofNat (n : Nat) : (UInt8.ofNat n).toNat = n % 256 := by
  rfl

theorem bin2nat_nat2bin (len n : Nat) : bin2nat (nat2bin len n) = n % 256 ^ len := by
  induction len with
  | zero => simp [nat2bin, bin2nat, Nat.mod_one]
  | succ len ih =>
    rw [nat2bin, bin2nat_cons, ih, nat2bin_length, toNat_ofNat]
    have h1 : n % 256 ^ (len + 1) = 256 ^ len * (n / 256 ^ len % 256) + n % 256 ^ len := by
      rw [pow_succ, Nat.mod_mul, Nat.add_comm]
    rw [h1]; ring

theorem bin2nat_lt (l : List UInt8) : bin2nat l < 256 ^ l.length := by
  induction l with
  | nil => simp [bin2nat]
  | cons b l ih =>
    rw [bin2nat_cons, List.length_cons, pow_succ]
    have := b.toNat_lt
    have h256 : UInt8.size = 256 := rfl
    nlinarith [pow_pos (show 0 < 256 by norm_num) l.length]

theorem numBytesAux_spec (fuel n : Nat) (h : n ≤ fuel) :
    n < 256 ^ numBytesAux fuel n ∧ (0 < n → 256 ^ (numBytesAux fuel n - 1) ≤ n) := by
  induction fuel generalizing n with
  | zero =>
    have : n = 0 := by omega
    subst this
    simp [numBytesAux]
  | succ fuel ih =>
    unfold numBytesAux
    by_cases h0 : n = 0
    · subst h0; simp
    · rw [if_neg h0]
      have hdiv : n / 256 ≤ fuel := by omega
      obtain ⟨h1, h2⟩ := ih (n / 256) hdiv
      constructor
      · rw [pow_succ]
        omega
      · intro _
        simp only [Nat.add_sub_cancel]
        by_cases hq : n / 256 = 0
        · have hz : numBytesAux fuel 0 = 0 := by cases fuel <;> simp [numBytesAux]
          rw [hq, hz, pow_zero]
          omega
        · have h3 := h2 (Nat.pos_of_ne_zero hq)
          have hpos : 0 < numBytesAux fuel (n / 256) := by
            by_contra hc
            have : numBytesAux fuel (n / 256) = 0 := by omega
            rw [this] at h1
            simp at h1
            exact hq h1
          have : numBytesAux fuel (n / 256) = (numBytesAux fuel (n / 256) - 1) + 1 := by omega
          rw [this, pow_succ]
          omega

theorem lt_pow_numBytes (n : Nat) : n < 256 ^ numBytes n :=
  (numBytesAux_spec n n (le_refl n)).1

theorem pow_numBytes_pred_le (n : Nat) (h : 0 < n) : 256 ^ (numBytes n - 1) ≤ n :=
  (numBytesAux_spec n n (le_refl n)).2 h

theorem numBytes_le_iff (n k : Nat) : numBytes n ≤ k ↔ n < 256 ^ k := by
  constructor
  · intro h
    exact lt_of_lt_of_le (lt_pow_numBytes n) (Nat.pow_le_pow_right (by norm_num) h)
  · intro h
    by_contra hc
    push_neg at hc
    have hpos : 0 < n := by
      by_contra h0
      have : n = 0 := by omega
      subst this
      simp [numBytes, numBytesAux] at hc
    have h1 := pow_numBytes_pred_le n hpos
    have h2 : 256 ^ k ≤ 256 ^ (numBytes n - 1) := Nat.pow_le_pow_right (by norm_num) (by omega)
    omega

theorem numBytes_pos (n : Nat) (h : 0 < n) : 0 < numBytes n := by
  by_contra hc
  have h0 : numBytes n = 0 := by omega
  have := lt_pow_numBytes n
  rw [h0] at this
  simp at this
  omega

theorem numBytes_mono (a b : Nat) (h : a ≤ b) : numBytes a ≤ numBytes b := by
  rw [numBytes_le_iff]
  exact lt_of_le_of_lt h (lt_pow_numBytes b)


theorem uint8_ne_zero_of_toNat (b : UInt8) (h : b.toNat ≠ 0) : b ≠ 0 := by
  intro hb
  apply h
  rw [hb]
  rfl

theorem parseDerLength_derLength (n : Nat) (rest : List UInt8) (hn : n < 256 ^ 126) :
    parseDerLength (derLength n ++ rest) = some (n, rest) := by
  unfold derLength
  by_cases h : n < 128
  · rw [if_pos h]
    simp only [List.singleton_append, parseDerLength, toNat_ofNat]
    have : n % 256 = n := Nat.mod_eq_of_lt (by omega)
    rw [this, if_pos h]
  · rw [if_neg h]
    have hk : numBytes n ≤ 126 := (numBytes_le_iff n 126).2 hn
    have hpos : 0 < numBytes n := numBytes_pos n (by omega)
    simp only [List.cons_append, parseDerLength, toNat_ofNat]
    have h1 : (128 + numBytes n) % 256 = 128 + numBytes n := Nat.mod_eq_of_lt (by omega)
    rw [h1]
    have h2 : ¬ (128 + numBytes n < 128) := by omega
    rw [if_neg h2]
    have h3 : 128 + numBytes n - 128 = numBytes n := by omega
    simp only [h3]
    have htake : (nat2bin (numBytes n) n ++ rest).take (numBytes n) = nat2bin (numBytes n) n := by
      rw [List.take_append_of_le_length (by rw [nat2bin_length])]
      rw [List.take_of_length_le (by rw [nat2bin_length])]
    have hdrop : (nat2bin (numBytes n) n ++ rest).drop (numBytes n) = rest := by
      rw [List.drop_append_of_le_length (by rw [nat2bin_length])]
      rw [List.drop_of_length_le (by rw [nat2bin_length])]
      rfl
    have h4 : ¬ (numBytes n = 0 ∨ numBytes n = 127 ∨
        (nat2bin (numBytes n) n ++ rest).length < numBytes n) := by
      rw [List.length_append, nat2bin_length]
      omega
    rw [if_neg h4, htake, hdrop, bin2nat_nat2bin]
    have h5 : n % 256 ^ numBytes n = n := Nat.mod_eq_of_lt (lt_pow_numBytes n)
    rw [h5]
    have h6 : ¬ (n < 128 ∨ (nat2bin (numBytes n) n).head? = some 0) := by
      intro hc
      rcases hc with hc | hc
      · exact h hc
      · obtain ⟨k, hkk⟩ : ∃ k, numBytes n = k + 1 := ⟨numBytes n - 1, by omega⟩
        rw [hkk] at hc
        simp only [nat2bin, List.head?_cons, Option.some.injEq] at hc
        have hle := pow_numBytes_pred_le n (by omega)
        have hlt := lt_pow_numBytes n
        rw [hkk] at hle hlt
        simp only [Nat.add_sub_cancel] at hle
        have hq1 : 1 ≤ n / 256 ^ k := (Nat.one_le_div_iff (by positivity)).2 hle
        have hq2 : n / 256 ^ k < 256 := by
          rw [Nat.div_lt_iff_lt_mul (by positivity)]
          rw [pow_succ] at hlt
          omega
        have : (UInt8.ofNat (n / 256 ^ k)).toNat ≠ 0 := by
          rw [toNat_ofNat, Nat.mod_eq_of_lt hq2]
          omega
        exact uint8_ne_zero_of_toNat _ this hc
    rw [if_neg h6]


theorem derIntegerSize_spec (m : Nat) :
    1 ≤ derIntegerSize m ∧ 2 * m < 256 ^ derIntegerSize m ∧
      (2 ≤ derIntegerSize m → 256 ^ (derIntegerSize m - 1) ≤ 2 * m) := by
  unfold derIntegerSize
  by_cases h0 : m = 0
  · subst h0; simp
  · rw [if_neg h0]
    have hpos : 0 < numBytes m := numBytes_pos m (by omega)
    have hlt := lt_pow_numBytes m
    have hle := pow_numBytes_pred_le m (by omega)
    obtain ⟨k, hk⟩ : ∃ k, numBytes m = k + 1 := ⟨numBytes m - 1, by omega⟩
    rw [hk] at hlt hle ⊢
    simp only [Nat.add_sub_cancel] at hle ⊢
    have hp : 0 < 256 ^ k := by positivity
    by_cases htop : 128 ≤ m / 256 ^ k
    · rw [if_pos htop]
      have h1 : 128 * 256 ^ k ≤ m := (Nat.le_div_iff_mul_le hp).1 htop
      refine ⟨by omega, ?_, ?_⟩
      · rw [pow_succ] at hlt ⊢
        rw [pow_succ]
        omega
      · intro _
        simp only [Nat.add_sub_cancel]
        rw [pow_succ]
        omega
    · rw [if_neg htop]
      have h1 : m < 128 * 256 ^ k := by
        have := (Nat.div_lt_iff_lt_mul hp).1 (show m / 256 ^ k < 128 by omega)
        omega
      refine ⟨by omega, ?_, ?_⟩
      · rw [pow_succ]
        omega
      · intro _
        simp only [Nat.add_sub_cancel]
        omega

theorem derIntegerContent_natCast (m : Nat) :
    derIntegerContent (m : Int) = nat2bin (derIntegerSize m) m := by
  unfold derIntegerContent
  have h0 : (0 : Int) ≤ (m : Int) := Int.natCast_nonneg m
  simp only [h0, if_true, Int.toNat_ofNat]
  congr 1
  have hlt := (derIntegerSize_spec m).2.1
  have h1 : (m : Int) < 256 ^ derIntegerSize m := by
    have : m < 256 ^ derIntegerSize m := by omega
    exact_mod_cast this
  rw [Int.emod_eq_of_lt h0 h1, Int.toNat_ofNat]

theorem derIntegerContent_length (m : Nat) :
    (derIntegerContent (m : Int)).length = derIntegerSize m := by
  rw [derIntegerContent_natCast, nat2bin_length]

theorem parseDerIntegerContent_derIntegerContent (m : Nat) :
    parseDerIntegerContent (derIntegerContent (m : Int)) = some (m : Int) := by
  rw [derIntegerContent_natCast]
  obtain ⟨h1, h2, h3⟩ := derIntegerSize_spec m
  generalize derIntegerSize m = len at h1 h2 h3
  match len, h1 with
  | 1, _ =>
    simp only [nat2bin, parseDerIntegerContent, toNat_ofNat, pow_zero, Nat.div_one]
    have hm : m % 256 = m := Nat.mod_eq_of_lt (by omega)
    rw [hm]
    have : m < 128 := by omega
    rw [if_pos this]
  | l + 2, _ =>
    have hbin := bin2nat_nat2bin (l + 2) m
    have hlen := nat2bin_length (l + 2) m
    simp only [nat2bin] at hbin hlen ⊢
    simp only [parseDerIntegerContent, toNat_ofNat]
    have hp : 0 < 256 ^ l := by positivity
    have hp1 : 0 < 256 ^ (l + 1) := by positivity
    have e1 : 256 ^ (l + 1) = 256 ^ l * 256 := pow_succ _ _
    have e2 : 256 ^ (l + 2) = 256 ^ l * 256 * 256 := by rw [pow_succ, pow_succ]
    have h3' : 256 ^ (l + 1) ≤ 2 * m := by
      have := h3 (by omega)
      simpa using this
    have hb0 : m / 256 ^ (l + 1) < 128 := by
      rw [Nat.div_lt_iff_lt_mul hp1]
      omega
    have hb0' : m / 256 ^ (l + 1) % 256 = m / 256 ^ (l + 1) := Nat.mod_eq_of_lt (by omega)
    simp only [hb0']
    have hnot : ¬ ((m / 256 ^ (l + 1) = 0 ∧ m / 256 ^ l % 256 < 128) ∨
        (m / 256 ^ (l + 1) = 255 ∧ 128 ≤ m / 256 ^ l % 256)) := by
      intro hc
      rcases hc with ⟨hz, hs⟩ | ⟨hz, _⟩
      · have hm1 : m < 256 ^ (l + 1) := by
          have := (Nat.div_eq_zero_iff hp1).1 hz
          omega
        have hq : m / 256 ^ l < 256 := by
          rw [Nat.div_lt_iff_lt_mul hp]
          omega
        rw [Nat.mod_eq_of_lt hq] at hs
        have := (Nat.div_lt_iff_lt_mul hp).1 hs
        omega
      · omega
    rw [if_neg hnot, if_pos hb0, hbin]
    have : m % 256 ^ (l + 2) = m := Nat.mod_eq_of_lt (by omega)
    rw [this]

theorem parseDerInteger_derInteger (m : Nat) (rest : List UInt8)
    (hm : derIntegerSize m < 256 ^ 126) :
    parseDerInteger (derInteger (m : Int) ++ rest) = some ((m : Int), rest) := by
  unfold derInteger
  simp only [List.cons_append, parseDerInteger, List.append_assoc]
  have h2 : (2 : UInt8).toNat = 2 := rfl
  rw [h2]
  simp only [ne_eq, not_true_eq_false, if_false]
  rw [derIntegerContent_length, parseDerLength_derLength _ _ hm]
  simp only
  have hl : ¬ ((derIntegerContent (m : Int) ++ rest).length < derIntegerSize m) := by
    rw [List.length_append, derIntegerContent_length]
    omega
  rw [if_neg hl]
  have htake : (derIntegerContent (m : Int) ++ rest).take (derIntegerSize m) =
      derIntegerContent (m : Int) := by
    rw [List.take_append_of_le_length (by rw [derIntegerContent_length])]
    rw [List.take_of_length_le (by rw [derIntegerContent_length])]
  have hdrop : (derIntegerContent (m : Int) ++ rest).drop (derIntegerSize m) = rest := by
    rw [List.drop_append_of_le_length (by rw [derIntegerContent_length])]
    rw [List.drop_of_length_le (by rw [derIntegerContent_length])]
    rfl
  rw [htake, hdrop, parseDerIntegerContent_derIntegerContent]

theorem d2i_i2d_ECDSA_SIG (r s : Nat)
    (hlen : (derInteger (r : Int) ++ derInteger (s : Int)).length < 256 ^ 126) :
    d2i_ECDSA_SIG (i2d_ECDSA_SIG (r : Int) (s : Int)) = some ((r : Int), (s : Int)) := by
  have hr : derIntegerSize r < 256 ^ 126 := by
    have : derIntegerSize r ≤ (derInteger (r : Int) ++ derInteger (s : Int)).length := by
      simp only [List.length_append, derInteger, List.length_cons, derIntegerContent_length]
      omega
    omega
  have hs : derIntegerSize s < 256 ^ 126 := by
    have : derIntegerSize s ≤ (derInteger (r : Int) ++ derInteger (s : Int)).length := by
      simp only [List.length_append, derInteger, List.length_cons, derIntegerContent_length]
      omega
    omega
  unfold i2d_ECDSA_SIG d2i_ECDSA_SIG
  have h48 : (48 : UInt8).toNat = 48 := rfl
  simp only [h48, ne_eq, not_true_eq_false, if_false]
  rw [parseDerLength_derLength _ _ hlen]
  simp only [lt_self_iff_false, if_false, List.take_length]
  rw [parseDerInteger_derInteger r _ hr]
  simp only
  have := parseDerInteger_derInteger s [] hs
  rw [List.append_nil] at this
  rw [this]
  simp

/-! ### Signature conversion -/

theorem writeAt_two (buf a b : List UInt8) (len : Nat) (ha : a.length = len)
    (hb : b.length = len) (hbuf : buf.length = len * 2) :
    writeAt (writeAt buf 0 a) len b = a ++ b := by
  subst ha
  unfold writeAt
  have h1 : (List.take 0 buf ++ a ++ List.drop (0 + a.length) buf).take a.length = a := by
    simp
  have h2 : (List.take 0 buf ++ a ++ List.drop (0 + a.length) buf).drop (a.length + b.length)
      = [] := by
    apply List.drop_of_length_le
    simp only [List.take_zero, List.nil_append, List.length_append, List.length_drop]
    omega
  rw [h1, h2, List.append_nil]

theorem bin2nat_eq_ofDigits (l : List UInt8) :
    bin2nat l = Nat.ofDigits 256 ((l.map UInt8.toNat).reverse) := by
  induction l with
  | nil => simp [bin2nat]
  | cons b l ih =>
    rw [bin2nat_cons, List.map_cons, List.reverse_cons, Nat.ofDigits_append, ← ih]
    simp only [List.length_reverse, List.length_map, Nat.ofDigits_singleton]
    ring

theorem i2d_inner_lt (r s : Int) (h : ((i2d_ECDSA_SIG r s).length : Int) ≤ INT_MAX) :
    (derInteger r ++ derInteger s).length < 256 ^ 126 := by
  unfold i2d_ECDSA_SIG INT_MAX at h
  simp only [List.length_cons, List.length_append] at h ⊢
  have : (2147483647 : Nat) < 256 ^ 126 := by norm_num
  omega

/-- C6: on a curve of order `n` with byte size `L`, for `0 < r < n` and
`0 < s < n`, `ConvertToWebCryptoSignature` applied to the DER coding of
`SEQUENCE { INTEGER r, INTEGER s }` returns a result that is not empty and has
`2·L` bytes, and `ConvertFromWebCryptoSignature` applied to that result returns
the DER coding byte for byte (the size of the DER coding is taken to fit the
`int` the source stores it in). -/
theorem C6_signature_round_trip (ssl : OpenSSL) (key : EC_KEY) (n r s : Int)
    (hn : ssl.EC_GROUP_get_order key.group = some n)
    (hr0 : 0 < r) (hr : r < n) (hs0 : 0 < s) (hs : s < n)
    (hsize : ((i2d_ECDSA_SIG r s).length : Int) ≤ INT_MAX) :
    ∃ fixed : List UInt8,
      ConvertToWebCryptoSignature ssl key (i2d_ECDSA_SIG r s) = .returned fixed ∧
      fixed ≠ [] ∧
      fixed.length = 2 * BN_num_bytes n ∧
      ConvertFromWebCryptoSignature ssl key fixed = .returned (i2d_ECDSA_SIG r s) := by
  obtain ⟨rn, rfl⟩ := Int.eq_ofNat_of_zero_le (le_of_lt hr0)
  obtain ⟨sn, rfl⟩ := Int.eq_ofNat_of_zero_le (le_of_lt hs0)
  obtain ⟨nn, rfl⟩ := Int.eq_ofNat_of_zero_le (le_of_lt (lt_trans hr0 hr))
  have hrn : rn < nn := by exact_mod_cast hr
  have hsn : sn < nn := by exact_mod_cast hs
  have hrpos : 0 < rn := by exact_mod_cast hr0
  have hL : 0 < numBytes nn := numBytes_pos nn (by omega)
  have hrL : numBytes rn ≤ numBytes nn := numBytes_mono _ _ (by omega)
  have hsL : numBytes sn ≤ numBytes nn := numBytes_mono _ _ (by omega)
  have hrlt : rn < 256 ^ numBytes nn := (numBytes_le_iff _ _).1 hrL
  have hslt : sn < 256 ^ numBytes nn := (numBytes_le_iff _ _).1 hsL
  have hparse := d2i_i2d_ECDSA_SIG rn sn (i2d_inner_lt _ _ hsize)
  have hto : ConvertToWebCryptoSignature ssl key (i2d_ECDSA_SIG rn sn) =
      .returned (nat2bin (numBytes nn) rn ++ nat2bin (numBytes nn) sn) := by
    unfold ConvertToWebCryptoSignature GroupOrderSize BN_bn2binpad BN_num_bytes
    rw [hparse, hn]
    simp only [Int.natAbs_ofNat]
    have h1 : ¬ (numBytes nn < numBytes rn) := by omega
    have h2 : ¬ (numBytes nn < numBytes sn) := by omega
    have h3 : ¬ ((numBytes nn : Int) = 0) := by omega
    simp only [h1, h2, h3, if_false]
    rw [writeAt_two _ _ _ (numBytes nn) (nat2bin_length _ _) (nat2bin_length _ _)
      (malloc_length _ _)]
  refine ⟨_, hto, ?_, ?_, ?_⟩
  · intro hnil
    have := congrArg List.length hnil
    simp only [List.length_append, nat2bin_length, List.length_nil] at this
    omega
  · simp only [List.length_append, nat2bin_length, BN_num_bytes, Int.natAbs_ofNat]
    omega
  · unfold ConvertFromWebCryptoSignature GroupOrderSize BN_num_bytes
    rw [hn]
    simp only [Int.natAbs_ofNat]
    have hlen : ¬ ((nat2bin (numBytes nn) rn ++ nat2bin (numBytes nn) sn).length ≠
        2 * numBytes nn) := by
      simp only [List.length_append, nat2bin_length]
      omega
    rw [if_neg hlen]
    have ht : (nat2bin (numBytes nn) rn ++ nat2bin (numBytes nn) sn).take (numBytes nn) =
        nat2bin (numBytes nn) rn := by
      rw [List.take_append_of_le_length (by rw [nat2bin_length])]
      rw [List.take_of_length_le (by rw [nat2bin_length])]
    have hd : ((nat2bin (numBytes nn) rn ++ nat2bin (numBytes nn) sn).drop (numBytes nn)).take
        (numBytes nn) = nat2bin (numBytes nn) sn := by
      rw [List.drop_append_of_le_length (by rw [nat2bin_length])]
      rw [List.drop_of_length_le (by rw [nat2bin_length])]
      rw [List.nil_append, List.take_of_length_le (by rw [nat2bin_length])]
    simp only [ht, hd, bin2nat_nat2bin, Nat.mod_eq_of_lt hrlt, Nat.mod_eq_of_lt hslt]
    have hsz : toInt32 ((i2d_ECDSA_SIG rn sn).length : Int) = (i2d_ECDSA_SIG rn sn).length :=
      toInt32_of_range _ (Int.natCast_nonneg _) hsize
    rw [hsz]
    simp

/-- Witness of C6 on prime256v1 with `r = 5` and `s = 7`. -/
theorem C6_signature_round_trip_witness :
    sampleSSL.EC_GROUP_get_order sampleECDH.key_.group = some prime256v1_order ∧
    (0 : Int) < 5 ∧ (5 : Int) < prime256v1_order ∧ (0 : Int) < 7 ∧ (7 : Int) < prime256v1_order ∧
    ((i2d_ECDSA_SIG 5 7).length : Int) ≤ INT_MAX ∧
    ∃ fixed : List UInt8,
      ConvertToWebCryptoSignature sampleSSL sampleECDH.key_ (i2d_ECDSA_SIG 5 7) =
        .returned fixed ∧
      fixed ≠ [] ∧
      fixed.length = 2 * BN_num_bytes prime256v1_order ∧
      ConvertFromWebCryptoSignature sampleSSL sampleECDH.key_ fixed =
        .returned (i2d_ECDSA_SIG 5 7) :=
  ⟨by decide, by decide, by decide, by decide, by decide, by decide,
   C6_signature_round_trip sampleSSL sampleECDH.key_ prime256v1_order 5 7 (by decide)
     (by decide) (by decide) (by decide) (by decide) (by decide)⟩

/-- C7: on a curve whose order has byte size `L`, `ConvertFromWebCryptoSignature`
returns the empty result for every input whose length is not `2·L`; for an
input of `2·L` bytes it returns the DER SEQUENCE of the INTEGERs `r` and `s`,
the big-endian values of the first and of the last `L` bytes, and that result
decodes to `(r, s)` (the size of the DER coding is taken to fit the `int` the
source stores it in). -/
theorem C7_ConvertFromWebCryptoSignature (ssl : OpenSSL) (key : EC_KEY) (n : Int)
    (sig : List UInt8) (hn : ssl.EC_GROUP_get_order key.group = some n) :
    (sig.length ≠ 2 * BN_num_bytes n →
      ConvertFromWebCryptoSignature ssl key sig = .returned []) ∧
    (sig.length = 2 * BN_num_bytes n →
      ∀ r s : Nat,
        r = Nat.ofDigits 256 (((sig.take (BN_num_bytes n)).map UInt8.toNat).reverse) →
        s = Nat.ofDigits 256 (((sig.drop (BN_num_bytes n)).map UInt8.toNat).reverse) →
        ((i2d_ECDSA_SIG r s).length : Int) ≤ INT_MAX →
        ConvertFromWebCryptoSignature ssl key sig = .returned (i2d_ECDSA_SIG r s) ∧
        i2d_ECDSA_SIG r s =
          48 :: (derLength (derInteger r ++ derInteger s).length ++
            (derInteger r ++ derInteger s)) ∧
        d2i_ECDSA_SIG (i2d_ECDSA_SIG r s) = some ((r : Int), (s : Int))) := by
  constructor
  · intro hlen
    unfold ConvertFromWebCryptoSignature GroupOrderSize
    rw [hn]
    simp only
    rw [if_pos hlen]
  · intro hlen r s hr hs hsize
    refine ⟨?_, rfl, d2i_i2d_ECDSA_SIG r s (i2d_inner_lt _ _ hsize)⟩
    unfold ConvertFromWebCryptoSignature GroupOrderSize
    rw [hn]
    simp only
    have hl : ¬ (sig.length ≠ 2 * BN_num_bytes n) := by omega
    rw [if_neg hl]
    have hd : (sig.drop (BN_num_bytes n)).take (BN_num_bytes n) = sig.drop (BN_num_bytes n) := by
      apply List.take_of_length_le
      rw [List.length_drop]
      omega
    rw [hd, bin2nat_eq_ofDigits, bin2nat_eq_ofDigits, ← hr, ← hs]
    have hsz : toInt32 ((i2d_ECDSA_SIG r s).length : Int) = (i2d_ECDSA_SIG r s).length :=
      toInt32_of_range _ (Int.natCast_nonneg _) hsize
    rw [hsz]
    simp

/-- Witness of C7 on prime256v1 (`L = 32`): a signature of three bytes, and the
64 bytes of `r = 5`, `s = 7`. -/
theorem C7_ConvertFromWebCryptoSignature_witness :
    sampleSSL.EC_GROUP_get_order sampleECDH.key_.group = some prime256v1_order ∧
    (([1, 2, 3] : List UInt8).length ≠ 2 * BN_num_bytes prime256v1_order ∧
      ConvertFromWebCryptoSignature sampleSSL sampleECDH.key_ [1, 2, 3] = .returned []) ∧
    ((nat2bin 32 5 ++ nat2bin 32 7).length = 2 * BN_num_bytes prime256v1_order ∧
      ConvertFromWebCryptoSignature sampleSSL sampleECDH.key_ (nat2bin 32 5 ++ nat2bin 32 7) =
        .returned (i2d_ECDSA_SIG (5 : Nat) (7 : Nat)) ∧
      i2d_ECDSA_SIG (5 : Nat) (7 : Nat) = [48, 6, 2, 1, 5, 2, 1, 7]) :=
  ⟨by decide,
   ⟨by decide,
    (C7_ConvertFromWebCryptoSignature sampleSSL sampleECDH.key_ prime256v1_order [1, 2, 3]
      (by decide)).1 (by decide)⟩,
   ⟨by decide,
    ((C7_ConvertFromWebCryptoSignature sampleSSL sampleECDH.key_ prime256v1_order
      (nat2bin 32 5 ++ nat2bin 32 7) (by decide)).2 (by decide) 5 7 (by decide) (by decide)
      (by decide)).1,
    by decide⟩⟩

set_option maxRecDepth 4000 in
/-- C8, the failing input: on prime256v1 (`L = 32`) the DER signature with
`r = 2^256` and `s = 7` parses, `BN_bn2binpad` returns -1 for `r` and stores
nothing, and `ConvertToWebCryptoSignature` still returns 64 bytes, the first
32 of which are the unwritten content of the allocation. -/
theorem C8_ConvertToWebCryptoSignature_overflow_undetected :
    d2i_ECDSA_SIG overflowSignature = some (2 ^ 256, 7) ∧
    GroupOrderSize sampleSSL sampleECDH.key_ = .returned 32 ∧
    BN_bn2binpad (2 ^ 256) 32 = (-1, []) ∧
    ConvertToWebCryptoSignature sampleSSL sampleECDH.key_ overflowSignature =
      .returned (sampleSSL.malloc 32 ++ nat2bin 32 7) ∧
    ConvertToWebCryptoSignature sampleSSL sampleECDH.key_ overflowSignature ≠ .returned [] ∧
    (sampleSSL.malloc 32 ++ nat2bin 32 7).length = 2 * 32 := by
  decide

/-! ### JWK import and export -/

set_option maxRecDepth 20000 in
/-- C9, as stated, fails: `RSA` is the short name of an object that is not a
curve.  `GetCurveFromName` resolves it (id 19), so `ImportJWKEcKey` does not
throw `ERR_CRYPTO_INVALID_CURVE`: it reads the members of the JWK (an access
that throws is left pending) and, no key being available for the id, throws
`ERR_CRYPTO_INVALID_JWK` for a JWK that imports on prime256v1. -/
theorem C9_ImportJWKEcKey_non_curve_name_counterexample :
    GetCurveFromName sampleSSL "RSA" = 19 ∧
    EC_KEY_new_by_curve_name sampleSSL 19 = none ∧
    ImportJWKEcKey sampleSSL sampleEnv sampleJwk "RSA" = .error .ERR_CRYPTO_INVALID_JWK ∧
    ImportJWKEcKey sampleSSL sampleEnv sampleJwk "RSA" ≠ .error .ERR_CRYPTO_INVALID_CURVE ∧
    ImportJWKEcKey sampleSSL sampleEnv (fun _ => none) "RSA" = .pending_exception ∧
    ImportJWKEcKey sampleSSL sampleEnv sampleJwk "prime256v1" = .key samplePublicKey := by
  decide

/-- C9, amended: for a name that `GetCurveFromName` resolves (a NIST alias or
the short name of an object) and a JWK whose members `x`, `y`, `d` can be
read, `ImportJWKEcKey` fails with `ERR_CRYPTO_INVALID_JWK` when `x` or `y` is
not a string, when `d` is present and not a string, when no key can be created
for the id resolved, when `(x, y)` is not on the curve, or when setting the
private scalar fails; otherwise it returns a key with public point `(x, y)`,
public when `d` is absent and private with private scalar `d` when `d` is a
string.  For a name that `GetCurveFromName` does not resolve, that is, neither
a NIST alias nor the short name of an object, it fails with
`ERR_CRYPTO_INVALID_CURVE` whatever the JWK is. -/
theorem C9_ImportJWKEcKey (ssl : OpenSSL) (env : Environment) (jwk : JwkSource) (curve : String)
    (xv yv dv : JSValue)
    (hx : jwk jwk_x_string = some xv) (hy : jwk jwk_y_string = some yv)
    (hd : jwk jwk_d_string = some dv)
    (hknown : GetCurveFromName ssl curve ≠ NID_undef) :
    ((xv.IsString = false ∨ yv.IsString = false ∨
        (dv.IsUndefined = false ∧ dv.IsString = false)) →
      ImportJWKEcKey ssl env jwk curve = .error .ERR_CRYPTO_INVALID_JWK) ∧
    (EC_KEY_new_by_curve_name ssl (GetCurveFromName ssl curve) = none →
      ImportJWKEcKey ssl env jwk curve = .error .ERR_CRYPTO_INVALID_JWK) ∧
    (∀ ec : EC_KEY, EC_KEY_new_by_curve_name ssl (GetCurveFromName ssl curve) = some ec →
      xv.IsString = true → yv.IsString = true →
      (dv.IsUndefined = true ∨ dv.IsString = true) →
      (ssl.is_on_curve ec.group (jwkNumber env xv) (jwkNumber env yv) = false →
        ImportJWKEcKey ssl env jwk curve = .error .ERR_CRYPTO_INVALID_JWK) ∧
      (ssl.is_on_curve ec.group (jwkNumber env xv) (jwkNumber env yv) = true →
        (dv.IsUndefined = true →
          ImportJWKEcKey ssl env jwk curve = .key
            { type := .kKeyTypePublic,
              ec := { group := ec.group,
                      pub_key := some (.affine (jwkNumber env xv) (jwkNumber env yv)),
                      priv_key := ec.priv_key } }) ∧
        (dv.IsString = true →
          ssl.EC_KEY_set_private_key_ok
            { group := ec.group,
              pub_key := some (.affine (jwkNumber env xv) (jwkNumber env yv)),
              priv_key := ec.priv_key } (jwkNumber env dv) = true →
          ImportJWKEcKey ssl env jwk curve = .key
            { type := .kKeyTypePrivate,
              ec := { group := ec.group,
                      pub_key := some (.affine (jwkNumber env xv) (jwkNumber env yv)),
                      priv_key := some (jwkNumber env dv) } }) ∧
        (dv.IsString = true →
          ssl.EC_KEY_set_private_key_ok
            { group := ec.group,
              pub_key := some (.affine (jwkNumber env xv) (jwkNumber env yv)),
              priv_key := ec.priv_key } (jwkNumber env dv) = false →
          ImportJWKEcKey ssl env jwk curve = .error .ERR_CRYPTO_INVALID_JWK))) ∧
    (∀ (curve2 : String) (jwk2 : JwkSource), GetCurveFromName ssl curve2 = NID_undef →
      ImportJWKEcKey ssl env jwk2 curve2 = .error .ERR_CRYPTO_INVALID_CURVE) ∧
    (∀ name : String, GetCurveFromName ssl name = NID_undef ↔
      (ssl.EC_curve_nist2nid name = NID_undef ∧ ssl.OBJ_sn2nid name = NID_undef)) := by
  refine ⟨?_, ?_, ?_, ?_, ?_⟩
  · intro h
    unfold ImportJWKEcKey
    simp only [hknown, if_false, hx, hy, hd]
    rcases h with h | h | ⟨h1, h2⟩ <;> simp [*]
  · intro hkey
    unfold ImportJWKEcKey
    simp only [hknown, if_false, hx, hy, hd, hkey]
    split_ifs <;> rfl
  · intro ec hkey hxs hys hds
    have hnot : (!xv.IsString || !yv.IsString || (!dv.IsUndefined && !dv.IsString)) = false := by
      rcases hds with h | h <;> simp [hxs, hys, h]
    constructor
    · intro hoff
      unfold ImportJWKEcKey
      simp only [hknown, if_false, hx, hy, hd, hnot, hkey, Bool.false_eq_true]
      unfold EC_KEY_set_public_key_affine_coordinates
      unfold jwkNumber at hoff
      simp [hoff]
    · intro hon
      unfold jwkNumber at hon
      refine ⟨?_, ?_, ?_⟩
      · intro hundef
        have hstr : dv.IsString = false := by
          cases dv <;> simp_all [JSValue.IsUndefined, JSValue.IsString]
        unfold ImportJWKEcKey
        simp only [hknown, if_false, hx, hy, hd, hnot, hkey, Bool.false_eq_true]
        unfold EC_KEY_set_public_key_affine_coordinates
        simp [hon, hstr, jwkNumber]
      · intro hstr hset
        unfold jwkNumber at hset
        unfold ImportJWKEcKey
        simp only [hknown, if_false, hx, hy, hd, hnot, hkey, Bool.false_eq_true]
        unfold EC_KEY_set_public_key_affine_coordinates EC_KEY_set_private_key
        simp [hon, hstr, hset, jwkNumber]
      · intro hstr hset
        unfold jwkNumber at hset
        unfold ImportJWKEcKey
        simp only [hknown, if_false, hx, hy, hd, hnot, hkey, Bool.false_eq_true]
        unfold EC_KEY_set_public_key_affine_coordinates EC_KEY_set_private_key
        simp [hon, hstr, hset]
  · intro curve2 jwk2 h
    unfold ImportJWKEcKey
    simp [h]
  · intro name
    unfold GetCurveFromName
    by_cases h : ssl.EC_curve_nist2nid name = NID_undef
    · simp [h]
    · simp [h]

set_option maxRecDepth 20000 in
/-- Witness of C9: the JWK of the key pair with private scalar 1 imported on
prime256v1, the same JWK with a name that is resolved to no curve, and with a
name that is not resolved. -/
theorem C9_ImportJWKEcKey_witness :
    samplePrivateJwk jwk_x_string =
      some (.string "axfR8uEsQkf4vOblY6RA8ncDfYEt6zOg9KE5RdiYwpY") ∧
    samplePrivateJwk jwk_y_string =
      some (.string "T-NC4v4af5uO5-tKfA-eFivOM1drMV7Oy7ZAaDe_UfU") ∧
    samplePrivateJwk jwk_d_string =
      some (.string "AAAAAAAAAAAAAAAAAAAAAAAAAAAAAAAAAAAAAAAAAAE") ∧
    GetCurveFromName sampleSSL "prime256v1" ≠ NID_undef ∧
    EC_KEY_new_by_curve_name sampleSSL (GetCurveFromName sampleSSL "prime256v1") =
      some { group := prime256v1, pub_key := none, priv_key := none } ∧
    ImportJWKEcKey sampleSSL sampleEnv samplePrivateJwk "prime256v1" = .key samplePrivateKey ∧
    GetCurveFromName sampleSSL "RSA" ≠ NID_undef ∧
    EC_KEY_new_by_curve_name sampleSSL (GetCurveFromName sampleSSL "RSA") = none ∧
    ImportJWKEcKey sampleSSL sampleEnv samplePrivateJwk "RSA" =
      .error .ERR_CRYPTO_INVALID_JWK ∧
    GetCurveFromName sampleSSL "prime256" = NID_undef ∧
    ImportJWKEcKey sampleSSL sampleEnv samplePrivateJwk "prime256" =
      .error .ERR_CRYPTO_INVALID_CURVE :=
  ⟨by decide, by decide, by decide, by decide, by decide,
   ((((C9_ImportJWKEcKey sampleSSL sampleEnv samplePrivateJwk "prime256v1"
      (.string "axfR8uEsQkf4vOblY6RA8ncDfYEt6zOg9KE5RdiYwpY")
      (.string "T-NC4v4af5uO5-tKfA-eFivOM1drMV7Oy7ZAaDe_UfU")
      (.string "AAAAAAAAAAAAAAAAAAAAAAAAAAAAAAAAAAAAAAAAAAE")
      (by decide) (by decide) (by decide) (by decide)).2.2.1
      { group := prime256v1, pub_key := none, priv_key := none } (by decide)
      (by decide) (by decide) (Or.inr (by decide))).2 (by decide)).2.1 (by decide)
      (by decide)),
   by decide, by decide,
   (C9_ImportJWKEcKey sampleSSL sampleEnv samplePrivateJwk "RSA"
      (.string "axfR8uEsQkf4vOblY6RA8ncDfYEt6zOg9KE5RdiYwpY")
      (.string "T-NC4v4af5uO5-tKfA-eFivOM1drMV7Oy7ZAaDe_UfU")
      (.string "AAAAAAAAAAAAAAAAAAAAAAAAAAAAAAAAAAAAAAAAAAE")
      (by decide) (by decide) (by decide) (by decide)).2.1 (by decide),
   by decide,
   (C9_ImportJWKEcKey sampleSSL sampleEnv samplePrivateJwk "prime256v1"
      (.string "axfR8uEsQkf4vOblY6RA8ncDfYEt6zOg9KE5RdiYwpY")
      (.string "T-NC4v4af5uO5-tKfA-eFivOM1drMV7Oy7ZAaDe_UfU")
      (.string "AAAAAAAAAAAAAAAAAAAAAAAAAAAAAAAAAAAAAAAAAAE")
      (by decide) (by decide) (by decide) (by decide)).2.2.2.1
      "prime256" samplePrivateJwk (by decide)⟩

/-- C10, as stated, fails: the export of a public key of prime256v1 into a
target without properties succeeds and the target has no `crv` afterwards. -/
theorem C10_ExportJWKEcKey_no_crv_counterexample :
    ∃ m : JwkTarget,
      ExportJWKEcKey sampleSSL sampleEnv samplePublicKey emptyTarget = .just m ∧
      m jwk_crv_string = .undefined ∧
      m jwk_kty_string = .string "EC" :=
  ⟨_, rfl, by decide, by decide⟩

/-- C10, amended: on success the target has `kty = "EC"` and string members
`x` and `y`; `d` is written (a string) when the key is private and left as it
was otherwise; every other property, `crv` included, is left as the target had
it.  On a target without properties the members present afterwards are
exactly `kty`, `x`, `y`, and `d` for a private key. -/
theorem C10_ExportJWKEcKey_fields (ssl : OpenSSL) (env : Environment) (key : KeyObjectData)
    (target m : JwkTarget) (h : ExportJWKEcKey ssl env key target = .just m) :
    m jwk_kty_string = .string jwk_ec_string ∧
    (m jwk_x_string).IsString = true ∧
    (m jwk_y_string).IsString = true ∧
    (key.type = .kKeyTypePrivate → (m jwk_d_string).IsString = true) ∧
    (key.type ≠ .kKeyTypePrivate → m jwk_d_string = target jwk_d_string) ∧
    (∀ name : String, name ≠ jwk_kty_string → name ≠ jwk_x_string → name ≠ jwk_y_string →
      name ≠ jwk_d_string → m name = target name) ∧
    m jwk_crv_string = target jwk_crv_string ∧
    ((∀ name : String, target name = .undefined) →
      ∀ name : String, m name ≠ .undefined ↔
        (name = jwk_kty_string ∨ name = jwk_x_string ∨ name = jwk_y_string ∨
          (name = jwk_d_string ∧ key.type = .kKeyTypePrivate))) := by
  unfold ExportJWKEcKey SetEncodedValue at h
  by_cases h1 : env.Set_ok jwk_kty_string = false
  · simp [h1] at h
  by_cases h2 : env.Set_ok jwk_x_string = true
  swap
  · simp [h1, h2] at h
  by_cases h3 : env.Set_ok jwk_y_string = true
  swap
  · simp [h1, h2, h3] at h
  by_cases hp : key.type = .kKeyTypePrivate
  · cases hpriv : key.ec.priv_key with
    | none => simp [h1, h2, h3, hp, hpriv] at h
    | some d =>
      by_cases h4 : env.Set_ok jwk_d_string = true
      swap
      · simp [h1, h2, h3, hp, hpriv, h4] at h
      simp only [h1, h2, h3, hp, hpriv, h4, if_true, if_false] at h
      injection h with h
      subst h
      simp [JwkTarget.set, jwk_kty_string, jwk_x_string, jwk_y_string, jwk_d_string,
        jwk_crv_string, jwk_ec_string, JSValue.IsString, hp]
      refine ⟨?_, ?_⟩
      · intro name n1 n2 n3 n4
        simp [n1, n2, n3, n4]
      · intro hempty name
        by_cases c1 : name = "d" <;> by_cases c2 : name = "y" <;>
          by_cases c3 : name = "x" <;> by_cases c4 : name = "kty" <;>
          simp_all
  · simp only [h1, h2, h3, hp, if_true, if_false] at h
    injection h with h
    subst h
    simp [JwkTarget.set, jwk_kty_string, jwk_x_string, jwk_y_string, jwk_d_string,
      jwk_crv_string, jwk_ec_string, JSValue.IsString, hp]
    refine ⟨?_, ?_⟩
    · intro name n1 n2 n3 n4
      simp [n1, n2, n3, n4]
    · intro hempty name
      by_cases c1 : name = "d" <;> by_cases c2 : name = "y" <;>
        by_cases c3 : name = "x" <;> by_cases c4 : name = "kty" <;>
        simp_all


/-- Witness of C10: the export of the key pair with private scalar 1. -/
theorem C10_ExportJWKEcKey_fields_witness :
    ∃ m : JwkTarget,
      ExportJWKEcKey sampleSSL sampleEnv samplePrivateKey emptyTarget = .just m ∧
      m jwk_kty_string = .string jwk_ec_string ∧
      (m jwk_d_string).IsString = true ∧
      m jwk_crv_string = emptyTarget jwk_crv_string :=
  ⟨_, rfl,
   (C10_ExportJWKEcKey_fields sampleSSL sampleEnv samplePrivateKey emptyTarget _ rfl).1,
   (C10_ExportJWKEcKey_fields sampleSSL sampleEnv samplePrivateKey emptyTarget _ rfl).2.2.2.1
     (by decide),
   (C10_ExportJWKEcKey_fields sampleSSL sampleEnv samplePrivateKey emptyTarget _
     rfl).2.2.2.2.2.2.1⟩

/-! ### Export of a key whose coordinates cannot be retrieved -/

/-- C11, the failing input: for a public key of prime256v1 whose point is the
point at infinity the retrieval of the affine coordinates fails, and
`ExportJWKEcKey` still returns `Just (true)`, with `x` and `y` written as the
text of 32 zero bytes.  The same holds for every public key whose retrieval
fails, whenever every `Set` succeeds: `x` and `y` are the text of the number 0
padded to `degree_bytes`. -/
theorem C11_ExportJWKEcKey_retrieval_failure_ignored :
    EC_POINT_get_affine_coordinates infinityPublicKey.ec.pub_key = none ∧
    (∃ m : JwkTarget,
      ExportJWKEcKey sampleSSL sampleEnv infinityPublicKey emptyTarget = .just m ∧
      m jwk_x_string = .string "AAAAAAAAAAAAAAAAAAAAAAAAAAAAAAAAAAAAAAAAAAA" ∧
      m jwk_y_string = .string "AAAAAAAAAAAAAAAAAAAAAAAAAAAAAAAAAAAAAAAAAAA") ∧
    sampleEnv.base64url (List.replicate 32 0) = "AAAAAAAAAAAAAAAAAAAAAAAAAAAAAAAAAAAAAAAAAAA" ∧
    (∀ (ssl : OpenSSL) (env : Environment) (key : KeyObjectData) (target : JwkTarget),
      EC_POINT_get_affine_coordinates key.ec.pub_key = none →
      (∀ name : String, env.Set_ok name = true) →
      key.type = .kKeyTypePublic →
      ExportJWKEcKey ssl env key target = .just
        (((target.set jwk_kty_string (.string jwk_ec_string)).set jwk_x_string
          (.string (env.base64url
            (nat2bin (degree_bytes (ssl.EC_GROUP_get_degree key.ec.group)).toNat 0)))).set
          jwk_y_string
          (.string (env.base64url
            (nat2bin (degree_bytes (ssl.EC_GROUP_get_degree key.ec.group)).toNat 0))))) := by
  refine ⟨by decide, ⟨_, rfl, by decide, by decide⟩, by decide, ?_⟩
  intro ssl env key target hfail hset hpub
  unfold ExportJWKEcKey SetEncodedValue degree_bytes
  simp [hfail, hset, hpub]

/-! ### The invariant of the key material -/

/-- `GenerateKeys` either returns normally, having installed the scalar drawn
together with its multiple of the generator, or throws and leaves in the key
what the failed generation left. -/
theorem GenerateKeys_result (ssl : OpenSSL) (ecdh : ECDH) (gen : Generation) :
    ((ecdh.GenerateKeys ssl gen).1 ≠ .returned () ∧
      (ecdh.GenerateKeys ssl gen).2 =
        { key_ := { group := ecdh.key_.group, pub_key := gen.left_pub_key,
                    priv_key := gen.left_priv_key },
          group_ := ecdh.group_ }) ∨
    ∃ (k : Int) (kG : EC_POINT),
      gen.drawn = some k ∧
      ssl.EC_POINT_mul ecdh.key_.group k = some kG ∧
      ecdh.GenerateKeys ssl gen =
        (.returned (),
          { key_ := { group := ecdh.key_.group, pub_key := some kG, priv_key := some k },
            group_ := ecdh.group_ }) := by
  unfold ECDH.GenerateKeys EC_KEY_generate_key
  cases hd : gen.drawn with
  | none => left; simp
  | some k =>
    cases h : ssl.EC_POINT_mul ecdh.key_.group k with
    | none => left; simp [h]
    | some kG => right; exact ⟨k, kG, rfl, h, by simp [h]⟩

/-- A generation that succeeds as specified returns normally with a scalar in
range and its multiple of the generator. -/
theorem GenerateKeys_of_succeeds (ssl : OpenSSL) (g : EC_GROUP) (ecdh : ECDH)
    (gen : Generation) (hk : ecdh.key_.group = g)
    (hc : (Call.GenerateKeys gen).generationSucceeds ssl g = true) :
    ∃ (k : Int) (kG : EC_POINT) (n : Int),
      ssl.EC_GROUP_get_order g = some n ∧ 1 ≤ k ∧ k < n ∧
      ssl.EC_POINT_mul g k = some kG ∧
      ecdh.GenerateKeys ssl gen =
        (.returned (),
          { key_ := { group := ecdh.key_.group, pub_key := some kG, priv_key := some k },
            group_ := ecdh.group_ }) := by
  unfold Call.generationSucceeds at hc
  cases hd : gen.drawn with
  | none => simp [hd] at hc
  | some k =>
    cases ho : ssl.EC_GROUP_get_order g with
    | none => simp [hd, ho] at hc
    | some n =>
      cases hm : ssl.EC_POINT_mul g k with
      | none => simp [hd, ho, hm] at hc
      | some kG =>
        simp only [hd, ho, hm, Bool.and_eq_true, decide_eq_true_eq] at hc
        refine ⟨k, kG, n, rfl, hc.1.1, hc.1.2, hm, ?_⟩
        rw [← hk] at hm
        simp [ECDH.GenerateKeys, EC_KEY_generate_key, hd, hm]

/-- `SetPublicKey` either returns normally, having replaced the public point
by the decoded one and nothing else, or throws and leaves the private scalar
and the groups as they were. -/
theorem SetPublicKey_result (ssl : OpenSSL) (ecdh : ECDH) (buf : List UInt8) :
    ((ecdh.SetPublicKey ssl buf).1 ≠ .returned () ∧
      (ecdh.SetPublicKey ssl buf).2.key_.priv_key = ecdh.key_.priv_key ∧
      (ecdh.SetPublicKey ssl buf).2.key_.group = ecdh.key_.group ∧
      (ecdh.SetPublicKey ssl buf).2.group_ = ecdh.group_) ∨
    ∃ pub : EC_POINT,
      ssl.EC_POINT_oct2point ecdh.group_ buf = some pub ∧
      ecdh.SetPublicKey ssl buf =
        (.returned (),
          { key_ := { group := ecdh.key_.group, pub_key := some pub,
                      priv_key := ecdh.key_.priv_key },
            group_ := ecdh.group_ }) := by
  unfold ECDH.SetPublicKey ECDH.BufferToPoint EC_KEY_set_public_key
  by_cases h1 : ssl.EC_POINT_new ecdh.group_ = false
  · left; simp [h1]
  by_cases h2 : CheckSizeInt32 buf.length = false
  · left; simp [h1, h2]
  cases h3 : ssl.EC_POINT_oct2point ecdh.group_ buf with
  | none => left; simp [h1, h2, h3]
  | some pub =>
    by_cases h4 : ssl.EC_KEY_set_public_key_ok ecdh.key_ pub = true
    · right; exact ⟨pub, rfl, by simp [h1, h2, h3, h4]⟩
    · left; simp [h1, h2, h3, h4]

/-- When `EC_KEY_copy` does not fail, a call that is not a failing generation
keeps the groups of the object and a private scalar in range. -/
theorem call_sound (ssl : OpenSSL) (g : EC_GROUP) (ecdh : ECDH) (c : Call)
    (hcopy : ∀ dest src : EC_KEY, ssl.EC_KEY_copy_left dest src = none)
    (hs : KeyMaterialSound ssl g ecdh) (hc : c.generationSucceeds ssl g = true) :
    KeyMaterialSound ssl g (ecdh.call ssl c).2 := by
  obtain ⟨hg, hk, hr⟩ := hs
  cases c with
  | GenerateKeys gen =>
    obtain ⟨k, kG, n, ho, h1, h2, _, h⟩ := GenerateKeys_of_succeeds ssl g ecdh gen hk hc
    simp only [ECDH.call]; rw [h]
    refine ⟨hg, hk, ?_⟩
    simp [ECDH.privateScalarInRange, hg, ho, h1, h2]
  | SetPrivateKey buf =>
    rcases SetPrivateKey_result ssl ecdh buf with ⟨_, h⟩ | ⟨kG, hv, _, h⟩
    · simp only [ECDH.call]; rw [h]; exact ⟨hg, hk, hr⟩
    · have hcp : ∀ src : EC_KEY, EC_KEY_copy ssl ecdh.key_ src = src := by
        intro src
        simp [EC_KEY_copy, hcopy]
      simp only [ECDH.call]; rw [h, hcp]
      refine ⟨hk, hk, ?_⟩
      cases ho : ssl.EC_GROUP_get_order ecdh.group_ with
      | none =>
        unfold ECDH.IsKeyValidForCurve at hv
        rw [ho] at hv
        split_ifs at hv
      | some n =>
        have := (IsKeyValidForCurve_eq_true_iff ssl ecdh n _ ho).1 hv
        rw [hg] at ho
        simp [ECDH.privateScalarInRange, hk, ho, this]
  | SetPublicKey buf =>
    rcases SetPublicKey_result ssl ecdh buf with ⟨_, hp, hkg, hgg⟩ | ⟨pub, _, h⟩
    · simp only [ECDH.call]
      refine ⟨hgg.trans hg, hkg.trans hk, ?_⟩
      simpa [ECDH.privateScalarInRange, hp, hgg] using hr
    · simp only [ECDH.call]; rw [h]
      refine ⟨hg, hk, ?_⟩
      simpa [ECDH.privateScalarInRange] using hr

/-- When `EC_KEY_copy` does not fail, a sequence of calls without a failing
generation keeps the groups of the object and a private scalar in range. -/
theorem run_sound (ssl : OpenSSL) (g : EC_GROUP) (calls : List Call) (ecdh : ECDH)
    (hcopy : ∀ dest src : EC_KEY, ssl.EC_KEY_copy_left dest src = none)
    (hs : KeyMaterialSound ssl g ecdh)
    (hc : ∀ c ∈ calls, c.generationSucceeds ssl g = true) :
    KeyMaterialSound ssl g (ecdh.run ssl calls) := by
  induction calls generalizing ecdh with
  | nil => exact hs
  | cons c calls ih =>
    simp only [ECDH.run, List.foldl_cons]
    exact ih _ (call_sound ssl g ecdh c hcopy hs (hc c (List.mem_cons_self _ _)))
      (fun c2 h2 => hc c2 (List.mem_cons_of_mem _ h2))

/-- When `EC_KEY_copy` does not fail, a call other than `SetPublicKey` that
returns normally leaves a public point that matches the private scalar. -/
theorem call_establishes (ssl : OpenSSL) (ecdh : ECDH) (c : Call)
    (hcopy : ∀ dest src : EC_KEY, ssl.EC_KEY_copy_left dest src = none)
    (hwf : ecdh.group_ = ecdh.key_.group) (hc : c.isSetPublicKey = false)
    (hok : (ecdh.call ssl c).1 = .returned ()) :
    (ecdh.call ssl c).2.publicPointMatches ssl = true := by
  cases c with
  | GenerateKeys gen =>
    rcases GenerateKeys_result ssl ecdh gen with ⟨hne, _⟩ | ⟨k, kG, _, hm, h⟩
    · exact absurd hok hne
    · simp only [ECDH.call]; rw [h]
      rw [← hwf] at hm
      simp [ECDH.publicPointMatches, hm]
  | SetPrivateKey buf =>
    rcases SetPrivateKey_result ssl ecdh buf with ⟨hne, _⟩ | ⟨kG, _, hm, h⟩
    · exact absurd hok hne
    · have hcp : ∀ src : EC_KEY, EC_KEY_copy ssl ecdh.key_ src = src := by
        intro src
        simp [EC_KEY_copy, hcopy]
      simp only [ECDH.call]; rw [h, hcp]
      rw [hwf] at hm
      simp [ECDH.publicPointMatches, hm]
  | SetPublicKey buf => simp [Call.isSetPublicKey] at hc

/-- When `EC_KEY_copy` does not fail, a call other than `SetPublicKey` and
other than a failing generation keeps a public point that matches the private
scalar. -/
theorem call_keeps_match (ssl : OpenSSL) (g : EC_GROUP) (ecdh : ECDH) (c : Call)
    (hcopy : ∀ dest src : EC_KEY, ssl.EC_KEY_copy_left dest src = none)
    (hs : KeyMaterialSound ssl g ecdh) (hgen : c.generationSucceeds ssl g = true)
    (hc : c.isSetPublicKey = false)
    (hm : ecdh.publicPointMatches ssl = true) :
    (ecdh.call ssl c).2.publicPointMatches ssl = true := by
  have hwf : ecdh.group_ = ecdh.key_.group := by rw [hs.1, hs.2.1]
  by_cases hok : (ecdh.call ssl c).1 = .returned ()
  · exact call_establishes ssl ecdh c hcopy hwf hc hok
  · cases c with
    | GenerateKeys gen =>
      exfalso
      apply hok
      obtain ⟨k, kG, n, _, _, _, _, h⟩ := GenerateKeys_of_succeeds ssl g ecdh gen hs.2.1 hgen
      simp only [ECDH.call]; rw [h]
    | SetPrivateKey buf =>
      rcases SetPrivateKey_result ssl ecdh buf with ⟨_, h⟩ | ⟨kG, _, _, h⟩
      · simp only [ECDH.call]; rw [h]; exact hm
      · exfalso; apply hok; simp only [ECDH.call]; rw [h]
    | SetPublicKey buf => simp [Call.isSetPublicKey] at hc

/-- When `EC_KEY_copy` does not fail, a sequence of calls without
`SetPublicKey` and without a failing generation keeps a public point that
matches the private scalar. -/
theorem run_keeps_match (ssl : OpenSSL) (g : EC_GROUP) (calls : List Call) (ecdh : ECDH)
    (hcopy : ∀ dest src : EC_KEY, ssl.EC_KEY_copy_left dest src = none)
    (hs : KeyMaterialSound ssl g ecdh)
    (hd : ∀ c ∈ calls, c.generationSucceeds ssl g = true)
    (hc : ∀ c ∈ calls, c.isSetPublicKey = false)
    (hm : ecdh.publicPointMatches ssl = true) :
    (ecdh.run ssl calls).publicPointMatches ssl = true := by
  induction calls generalizing ecdh with
  | nil => exact hm
  | cons c calls ih =>
    simp only [ECDH.run, List.foldl_cons]
    exact ih _ (call_sound ssl g ecdh c hcopy hs (hd c (List.mem_cons_self _ _)))
      (fun c2 h2 => hd c2 (List.mem_cons_of_mem _ h2))
      (fun c2 h2 => hc c2 (List.mem_cons_of_mem _ h2))
      (call_keeps_match ssl g ecdh c hcopy hs (hd c (List.mem_cons_self _ _))
        (hc c (List.mem_cons_self _ _)) hm)

/-- A freshly constructed object holds no key and its two groups agree. -/
theorem New_sound (ssl : OpenSSL) (curve : String) (ecdh : ECDH)
    (h : ECDH.New ssl curve = .returned ecdh) :
    KeyMaterialSound ssl ecdh.group_ ecdh ∧ ecdh.key_.priv_key = none := by
  unfold ECDH.New EC_KEY_new_by_curve_name at h
  simp only at h
  split_ifs at h
  simp only [Outcome.returned.injEq] at h
  subst h
  simp [KeyMaterialSound, ECDH.privateScalarInRange]

/-- A generation that fails may leave a private scalar outside
`[1, order - 1]`: here `EC_KEY_generate_key` clears the scalar to 0 before it
fails, and `GenerateKeys` throws with that scalar in the object. -/
theorem GenerateKeys_failure_leaves_scalar :
    (freshECDH.GenerateKeys sampleSSL
      { drawn := none, left_priv_key := some 0, left_pub_key := none }).1 =
        .thrown .ERR_CRYPTO_OPERATION_FAILED ∧
    (freshECDH.GenerateKeys sampleSSL
      { drawn := none, left_priv_key := some 0, left_pub_key := none }).2.key_.priv_key =
        some 0 ∧
    (freshECDH.GenerateKeys sampleSSL
      { drawn := none, left_priv_key := some 0,
        left_pub_key := none }).2.privateScalarInRange sampleSSL = false := by
  decide

/-- C12, as stated, fails: on a fresh object of prime256v1, `SetPrivateKey`
with the scalar 1 followed by `SetPublicKey` with the encoding of `2·G` both
return normally and leave the private scalar 1 with the public point `2·G`,
which is not `1·G = G`. -/
theorem C12_SetPublicKey_breaks_invariant_counterexample :
    ECDH.New sampleSSL "prime256v1" = .returned freshECDH ∧
    (freshECDH.call sampleSSL (.SetPrivateKey [1])).1 = .returned () ∧
    ((freshECDH.run sampleSSL [.SetPrivateKey [1]]).call sampleSSL
      (.SetPublicKey prime256v1_2G_octets)).1 = .returned () ∧
    (freshECDH.run sampleSSL
      [.SetPrivateKey [1], .SetPublicKey prime256v1_2G_octets]).key_.priv_key = some 1 ∧
    (freshECDH.run sampleSSL
      [.SetPrivateKey [1], .SetPublicKey prime256v1_2G_octets]).key_.pub_key =
        some prime256v1_2G ∧
    sampleSSL.EC_POINT_mul prime256v1 1 = some prime256v1_G ∧
    prime256v1_2G ≠ prime256v1_G ∧
    (freshECDH.run sampleSSL
      [.SetPrivateKey [1], .SetPublicKey prime256v1_2G_octets]).publicPointMatches sampleSSL =
        false := by
  decide

/-- C12, amended: take a freshly constructed object and a sequence of
`GenerateKeys`, `SetPrivateKey` and `SetPublicKey` calls in which every
generation succeeds as `EC_KEY_generate_key` is specified to and
`EC_KEY_copy` does not fail; `SetPrivateKey` and `SetPublicKey` may succeed or
fail.  In the state reached, a private scalar that is present lies in
`[1, order - 1]`.  When the sequence has no `SetPublicKey` call the public
point is the private scalar times `G`; from any state reached, a
`GenerateKeys` or `SetPrivateKey` call that returns normally makes it so
again.  A `SetPublicKey` call that returns normally replaces the public point
by the decoded point and leaves the private scalar; a `SetPrivateKey` call
that does not return normally leaves the object as it was. -/
theorem C12_KeyMaterial_invariant (ssl : OpenSSL) (curve : String) (ecdh0 : ECDH)
    (calls : List Call)
    (hnew : ECDH.New ssl curve = .returned ecdh0)
    (hcopy : ∀ dest src : EC_KEY, ssl.EC_KEY_copy_left dest src = none)
    (hgen : ∀ c ∈ calls, c.generationSucceeds ssl ecdh0.group_ = true) :
    (ecdh0.run ssl calls).privateScalarInRange ssl = true ∧
    ((∀ c ∈ calls, c.isSetPublicKey = false) →
      (ecdh0.run ssl calls).publicPointMatches ssl = true) ∧
    (∀ c : Call, c.isSetPublicKey = false →
      ((ecdh0.run ssl calls).call ssl c).1 = .returned () →
      ((ecdh0.run ssl calls).call ssl c).2.publicPointMatches ssl = true) ∧
    (∀ buf : List UInt8,
      ((ecdh0.run ssl calls).SetPublicKey ssl buf).1 = .returned () →
      ((ecdh0.run ssl calls).SetPublicKey ssl buf).2.key_.priv_key =
        (ecdh0.run ssl calls).key_.priv_key ∧
      ((ecdh0.run ssl calls).SetPublicKey ssl buf).2.key_.pub_key =
        ssl.EC_POINT_oct2point (ecdh0.run ssl calls).group_ buf) ∧
    (∀ buf : List UInt8,
      ((ecdh0.run ssl calls).SetPrivateKey ssl buf).1 ≠ .returned () →
      ((ecdh0.run ssl calls).SetPrivateKey ssl buf).2 = ecdh0.run ssl calls) := by
  obtain ⟨hs0, hp0⟩ := New_sound ssl curve ecdh0 hnew
  have hm0 : ecdh0.publicPointMatches ssl = true := by
    simp [ECDH.publicPointMatches, hp0]
  have hs := run_sound ssl ecdh0.group_ calls ecdh0 hcopy hs0 hgen
  have hwf : (ecdh0.run ssl calls).group_ = (ecdh0.run ssl calls).key_.group := by
    rw [hs.1, hs.2.1]
  refine ⟨hs.2.2, ?_, ?_, ?_, ?_⟩
  · intro hc
    exact run_keeps_match ssl ecdh0.group_ calls ecdh0 hcopy hs0 hgen hc hm0
  · intro c hc hok
    exact call_establishes ssl _ c hcopy hwf hc hok
  · intro buf hok
    rcases SetPublicKey_result ssl (ecdh0.run ssl calls) buf with ⟨hne, _⟩ | ⟨pub, hdec, h⟩
    · exact absurd hok hne
    · rw [h, hdec]
      exact ⟨rfl, rfl⟩
  · intro buf hfail
    rcases SetPrivateKey_result ssl (ecdh0.run ssl calls) buf with ⟨_, h⟩ | ⟨kG, _, _, h⟩
    · exact h
    · exfalso; apply hfail; rw [h]

/-- Witness of C12 on prime256v1: a generation that draws 1, a refused scalar
0 and the scalar 1 set again. -/
theorem C12_KeyMaterial_invariant_witness :
    ECDH.New sampleSSL "prime256v1" = .returned freshECDH ∧
    (∀ dest src : EC_KEY, sampleSSL.EC_KEY_copy_left dest src = none) ∧
    (∀ c ∈ [Call.GenerateKeys sampleGeneration, Call.SetPrivateKey [0],
        Call.SetPrivateKey [1]],
      c.generationSucceeds sampleSSL freshECDH.group_ = true) ∧
    (freshECDH.run sampleSSL
      [.GenerateKeys sampleGeneration, .SetPrivateKey [0], .SetPrivateKey [1]]).key_.priv_key =
        some 1 ∧
    (freshECDH.run sampleSSL
      [.GenerateKeys sampleGeneration, .SetPrivateKey [0],
        .SetPrivateKey [1]]).privateScalarInRange sampleSSL = true ∧
    (freshECDH.run sampleSSL
      [.GenerateKeys sampleGeneration, .SetPrivateKey [0],
        .SetPrivateKey [1]]).publicPointMatches sampleSSL = true :=
  ⟨by decide, fun _ _ => rfl, by decide, by decide,
   (C12_KeyMaterial_invariant sampleSSL "prime256v1" freshECDH
      [.GenerateKeys sampleGeneration, .SetPrivateKey [0], .SetPrivateKey [1]] (by decide)
      (fun _ _ => rfl) (by decide)).1,
   (C12_KeyMaterial_invariant sampleSSL "prime256v1" freshECDH
      [.GenerateKeys sampleGeneration, .SetPrivateKey [0], .SetPrivateKey [1]] (by decide)
      (fun _ _ => rfl) (by decide)).2.1 (by decide)⟩

/-! ### Deriving bits -/

/-- The outcomes of `DeriveBits`: `false` when the config has no group; a
secret or `false` when both keys pass the full key check; the failed
`CHECK_EQ` when the private key or the public key does not pass it. -/
theorem DeriveBits_outcomes (ssl : OpenSSL) (params : ECDHBitsConfig) :
    (params.group = none → ECDHBitsTraits.DeriveBits ssl params = .returned none) ∧
    (params.group ≠ none → ssl.EC_KEY_check_key params.private_key = 1 →
      ssl.EC_KEY_check_key params.public_key = 1 →
      ECDHBitsTraits.DeriveBits ssl params = .returned none ∨
      ∃ secret : List UInt8, ECDHBitsTraits.DeriveBits ssl params = .returned (some secret)) ∧
    (params.group ≠ none →
      (ssl.EC_KEY_check_key params.private_key ≠ 1 ∨
        ssl.EC_KEY_check_key params.public_key ≠ 1) →
      ECDHBitsTraits.DeriveBits ssl params = .aborted) := by
  unfold ECDHBitsTraits.DeriveBits
  cases hg : params.group with
  | none => simp
  | some g =>
    refine ⟨by simp, ?_, ?_⟩
    · intro _ h1 h2
      simp only [h1, h2, ne_eq, not_true_eq_false, if_false]
      split_ifs
      · left; rfl
      · right; exact ⟨_, rfl⟩
    · intro _ h
      rcases h with h | h
      · simp [h]
      · by_cases h1 : ssl.EC_KEY_check_key params.private_key = 1
        · simp [h1, h]
        · simp [h1]

set_option maxRecDepth 20000 in
/-- C13, the failing input: the JWK with point `G` and private scalar 2
imports to a private key; its key check fails, and `DeriveBits` on a config
with that key ends with the failed `CHECK_EQ`, not with the return value
`false`, where `ComputeSecret` on an object holding the same key throws
`ERR_CRYPTO_INVALID_KEYPAIR`.  For every instance of the primitives and every
config with a group, a key that does not pass the check ends `DeriveBits` with
the failed assertion. -/
theorem C13_DeriveBits_aborts_on_invalid_key :
    ImportJWKEcKey sampleSSL sampleEnv mismatchedJwk "prime256v1" = .key mismatchedPrivateKey ∧
    mismatchedBitsConfig.private_key = mismatchedPrivateKey.ec ∧
    sampleSSL.EC_KEY_check_key mismatchedBitsConfig.private_key = 0 ∧
    ECDHBitsTraits.DeriveBits sampleSSL mismatchedBitsConfig = .aborted ∧
    ECDHBitsTraits.DeriveBits sampleSSL mismatchedBitsConfig ≠ .returned none ∧
    (ECDH.ComputeSecret sampleSSL { key_ := mismatchedPrivateKey.ec, group_ := prime256v1 }
      prime256v1_G_octets).1 = .thrown .ERR_CRYPTO_INVALID_KEYPAIR ∧
    (∀ (ssl : OpenSSL) (params : ECDHBitsConfig), params.group ≠ none →
      (ssl.EC_KEY_check_key params.private_key ≠ 1 ∨
        ssl.EC_KEY_check_key params.public_key ≠ 1) →
      ECDHBitsTraits.DeriveBits ssl params = .aborted) := by
  refine ⟨by decide, by decide, by decide, by decide, by decide, by decide, ?_⟩
  intro ssl params hg h
  exact (DeriveBits_outcomes ssl params).2.2 hg h

/-! ### The width of the JWK members -/

/-- The width computed by `ExportJWKEcKey` is `(b + 7) / 8` for a degree `b`
that fits an `int`. -/
theorem degree_bytes_eq (b : Nat) (hb : (b : Int) ≤ INT_MAX) :
    degree_bytes (b : Int) = (((b + 7) / 8 : Nat) : Int) := by
  unfold degree_bytes CHAR_BIT
  unfold INT_MAX at hb
  have h1 : Int.tmod (b : Int) 8 = (b : Int) % 8 := Int.tmod_eq_emod (by omega) (by omega)
  have h2 : Int.tdiv (b : Int) 8 = (b : Int) / 8 := Int.tdiv_eq_ediv (by omega) (by omega)
  rw [h1, h2]
  have h3 : toInt32 (7 + (b : Int) % 8) = 7 + (b : Int) % 8 :=
    toInt32_of_range _ (by omega) (by unfold INT_MAX; omega)
  rw [h3]
  have h4 : Int.tdiv (7 + (b : Int) % 8) 8 = (7 + (b : Int) % 8) / 8 :=
    Int.tdiv_eq_ediv (by omega) (by omega)
  rw [h4]
  rw [toInt32_of_range _ (by omega) (by unfold INT_MAX; omega)]
  omega

/-- The length of the shared secret is `(b + 7) / 8` when `b + 7` fits an
`int`. -/
theorem out_len_eq (b : Nat) (hb : (b : Int) + 7 ≤ INT_MAX) :
    out_len (b : Int) = (b + 7) / 8 := by
  unfold out_len
  exact secret_len_eq b hb

/-- A secret returned by `DeriveBits` has `out_len` bytes. -/
theorem DeriveBits_length (ssl : OpenSSL) (params : ECDHBitsConfig) (group : EC_GROUP)
    (secret : List UInt8) (hgroup : params.group = some group)
    (hret : ECDHBitsTraits.DeriveBits ssl params = .returned (some secret)) :
    secret.length = out_len (ssl.EC_GROUP_get_degree group) := by
  unfold ECDHBitsTraits.DeriveBits at hret
  rw [hgroup] at hret
  simp only at hret
  have h := ECDH_compute_key_length ssl
    (ssl.malloc (out_len (ssl.EC_GROUP_get_degree group))) params.public_key.pub_key
    params.private_key
  rw [malloc_length] at h
  unfold out_len at h ⊢
  split_ifs at hret
  · simp at hret
  · simp only [Outcome.returned.injEq, Option.some.injEq] at hret
    rw [← hret]
    exact h

/-- A secret returned by `ComputeSecret` has `out_len` bytes. -/
theorem ComputeSecret_length (ssl : OpenSSL) (ecdh : ECDH) (peer secret : List UInt8)
    (calls : List Prim)
    (hret : ecdh.ComputeSecret ssl peer = (.returned (.buffer secret), calls)) :
    secret.length = out_len (ssl.EC_GROUP_get_degree ecdh.group_) := by
  unfold ECDH.ComputeSecret at hret
  split_ifs at hret
  · simp at hret
  split at hret
  · simp at hret
  · simp at hret
  · rename_i pub _ _ _
    simp only at hret
    have h := ECDH_compute_key_length ssl
      (ssl.malloc (out_len (ssl.EC_GROUP_get_degree ecdh.group_))) (some pub) ecdh.key_
    rw [malloc_length] at h
    unfold out_len at h ⊢
    split_ifs at hret
    · simp at hret
    simp only [Prod.mk.injEq, Outcome.returned.injEq, SecretValue.buffer.injEq] at hret
    rw [← hret.1]
    exact h

/-- What `ExportJWKEcKey` writes under `x`, `y` and `d` on success. -/
theorem ExportJWKEcKey_members (ssl : OpenSSL) (env : Environment) (key : KeyObjectData)
    (target m : JwkTarget) (h : ExportJWKEcKey ssl env key target = .just m) :
    m jwk_x_string = .string (env.base64url
      (nat2bin (degree_bytes (ssl.EC_GROUP_get_degree key.ec.group)).toNat
        ((EC_POINT_get_affine_coordinates key.ec.pub_key).getD (0, 0)).1.natAbs)) ∧
    m jwk_y_string = .string (env.base64url
      (nat2bin (degree_bytes (ssl.EC_GROUP_get_degree key.ec.group)).toNat
        ((EC_POINT_get_affine_coordinates key.ec.pub_key).getD (0, 0)).2.natAbs)) ∧
    (key.type = .kKeyTypePrivate → ∀ d : Int, key.ec.priv_key = some d →
      m jwk_d_string = .string (env.base64url
        (nat2bin (degree_bytes (ssl.EC_GROUP_get_degree key.ec.group)).toNat d.natAbs))) := by
  unfold ExportJWKEcKey SetEncodedValue at h
  unfold degree_bytes
  by_cases h1 : env.Set_ok jwk_kty_string = false
  · simp [h1] at h
  by_cases h2 : env.Set_ok jwk_x_string = true
  swap
  · simp [h1, h2] at h
  by_cases h3 : env.Set_ok jwk_y_string = true
  swap
  · simp [h1, h2, h3] at h
  by_cases hp : key.type = .kKeyTypePrivate
  · cases hpriv : key.ec.priv_key with
    | none => simp [h1, h2, h3, hp, hpriv] at h
    | some d =>
      by_cases h4 : env.Set_ok jwk_d_string = true
      swap
      · simp [h1, h2, h3, hp, hpriv, h4] at h
      simp only [h1, h2, h3, hp, hpriv, h4, if_true, if_false] at h
      injection h with h
      subst h
      simp [JwkTarget.set, jwk_kty_string, jwk_x_string, jwk_y_string, jwk_d_string]
  · simp only [h1, h2, h3, hp, if_true, if_false] at h
    injection h with h
    subst h
    simp [JwkTarget.set, jwk_kty_string, jwk_x_string, jwk_y_string, jwk_d_string, hp]

/-- C14: for a degree of `b` bits, the width `degree_bytes` to which
`ExportJWKEcKey` pads `x`, `y` and `d`, computed as
`b / 8 + (7 + b mod 8) / 8`, is `ceil (b / 8)`; when `b + 7` fits an `int` it
equals the length `(b + 7) / 8` of the secret of `ComputeSecret` and
`DeriveBits`.  The members written by `ExportJWKEcKey` have that width and the
secrets returned have that length. -/
theorem C14_degree_bytes_is_ceil (b : Nat) (hb : (b : Int) ≤ INT_MAX) :
    degree_bytes (b : Int) = ((⌈(b : ℚ) / 8⌉₊ : Nat) : Int) ∧
    ((b : Int) + 7 ≤ INT_MAX →
      out_len (b : Int) = ⌈(b : ℚ) / 8⌉₊ ∧
      degree_bytes (b : Int) = ((out_len (b : Int) : Nat) : Int) ∧
      (∀ (ssl : OpenSSL) (ecdh : ECDH) (peer secret : List UInt8) (calls : List Prim),
        ssl.EC_GROUP_get_degree ecdh.group_ = (b : Int) →
        ecdh.ComputeSecret ssl peer = (.returned (.buffer secret), calls) →
        (secret.length : Int) = degree_bytes (b : Int)) ∧
      (∀ (ssl : OpenSSL) (params : ECDHBitsConfig) (group : EC_GROUP) (secret : List UInt8),
        params.group = some group → ssl.EC_GROUP_get_degree group = (b : Int) →
        ECDHBitsTraits.DeriveBits ssl params = .returned (some secret) →
        (secret.length : Int) = degree_bytes (b : Int))) ∧
    (∀ (ssl : OpenSSL) (env : Environment) (key : KeyObjectData) (target m : JwkTarget),
      ssl.EC_GROUP_get_degree key.ec.group = (b : Int) →
      ExportJWKEcKey ssl env key target = .just m →
      m jwk_x_string = .string (env.base64url (nat2bin ⌈(b : ℚ) / 8⌉₊
        ((EC_POINT_get_affine_coordinates key.ec.pub_key).getD (0, 0)).1.natAbs)) ∧
      m jwk_y_string = .string (env.base64url (nat2bin ⌈(b : ℚ) / 8⌉₊
        ((EC_POINT_get_affine_coordinates key.ec.pub_key).getD (0, 0)).2.natAbs)) ∧
      (key.type = .kKeyTypePrivate → ∀ d : Int, key.ec.priv_key = some d →
        m jwk_d_string = .string (env.base64url (nat2bin ⌈(b : ℚ) / 8⌉₊ d.natAbs)))) := by
  have hdb : degree_bytes (b : Int) = ((⌈(b : ℚ) / 8⌉₊ : Nat) : Int) := by
    rw [degree_bytes_eq b hb, ceil_div_eight]
  refine ⟨hdb, ?_, ?_⟩
  · intro hb7
    have hol : out_len (b : Int) = ⌈(b : ℚ) / 8⌉₊ := by
      rw [out_len_eq b hb7, ceil_div_eight]
    refine ⟨hol, by rw [hdb, hol], ?_, ?_⟩
    · intro ssl ecdh peer secret calls hdeg hret
      rw [ComputeSecret_length ssl ecdh peer secret calls hret, hdeg, hdb, hol]
    · intro ssl params group secret hgroup hdeg hret
      rw [DeriveBits_length ssl params group secret hgroup hret, hdeg, hdb, hol]
  · intro ssl env key target m hdeg hexp
    have hm := ExportJWKEcKey_members ssl env key target m hexp
    rw [hdeg, hdb] at hm
    simpa using hm

/-- Witness of C14 on the 521-bit curve: both widths are 66. -/
theorem C14_degree_bytes_is_ceil_witness :
    ((521 : Nat) : Int) ≤ INT_MAX ∧
    degree_bytes ((521 : Nat) : Int) = ((⌈((521 : Nat) : ℚ) / 8⌉₊ : Nat) : Int) ∧
    ((521 : Nat) : Int) + 7 ≤ INT_MAX ∧
    out_len ((521 : Nat) : Int) = ⌈((521 : Nat) : ℚ) / 8⌉₊ ∧
    degree_bytes 521 = 66 ∧ out_len 521 = 66 :=
  ⟨by decide, (C14_degree_bytes_is_ceil 521 (by decide)).1, by decide,
   ((C14_degree_bytes_is_ceil 521 (by decide)).2.1 (by decide)).1, by decide, by decide⟩

end NodeEcdh
